import Mathlib

/-!
ContainerKit CLI: the migration-manifest compiler.

A shallow embedding of `src/cli/cmd/migration.go` and the properties of its
filename version parser, migration discovery, validator and manifest generator.

Conventions of the embedding.

* A Go `string` is a `List Char`. Every byte the program inspects (`.`, `/`, `_`,
  `+`, `-`, the decimal digits) is ASCII, and no
  byte of a multi-byte UTF-8 sequence is ASCII, so scanning characters and scanning
  bytes agree.
* Go's `int` is the 64-bit type of the platforms the tool is built for
  (`aarch64-apple-darwin`, `x86_64-apple-darwin`); values are `Int` with the range
  check of `strconv` written out.
* `filepath` is the Unix flavour: the path separator is `/`.
* Standard-library routines (`filepath.Ext`, `strings.TrimSuffix`, `strings.Split`,
  `strconv.Atoi`, `fmt.Sprintf`, `sort.Slice`) are modelled from their documented
  behaviour; `sort.Slice` is a parameter constrained by its documented contract.
* The operating system is an oracle (`World`) answering `os.Getwd`, `os.Stat`,
  `os.ReadDir` and `os.WriteFile`; a run returns the sequence of its effects and
  its error value.
-/

namespace ContainerKit

/-! ## Strings and the standard-library routines used by the parser -/

/-- A Go string. -/
abbrev GoString := List Char

/-- The loop of `filepath.Ext`: walk from the last character towards the first,
stop with the empty string at a path separator, stop with the suffix at a dot.
The first argument is the part of the path not yet visited, last character
first; the second is the part already visited, in path order. -/
def Ext.scan : List Char → List Char → GoString
  | [], _ => []
  | c :: before, after =>
    if c = '/' then []
    else if c = '.' then c :: after
    else Ext.scan before (c :: after)

/-- Go `filepath.Ext`: the suffix beginning at the final dot in the final element
of the path, empty if there is no dot. -/
def Ext (path : GoString) : GoString := Ext.scan path.reverse []

/-- Go `strings.HasSuffix`. -/
def HasSuffix (s suffix : GoString) : Bool := suffix.isSuffixOf s

/-- Go `strings.TrimSuffix`: `s` without the trailing `suffix`, or `s` itself when
it does not end in `suffix`. -/
def TrimSuffix (s suffix : GoString) : GoString :=
  if HasSuffix s suffix then s.take (s.length - suffix.length) else s

/-- Go `strings.Split(s, sep)` for a separator of one character: the substrings
between the separators. The result is never empty. -/
def Split (s : GoString) (sep : Char) : List GoString :=
  match s with
  | [] => [[]]
  | c :: rest =>
    if c = sep then [] :: Split rest sep
    else
      match Split rest sep with
      | [] => [[c]]
      | part :: parts => (c :: part) :: parts

/-- The value of a decimal digit character (`ch - '0'`). -/
def digitValue (c : Char) : Nat := c.toNat - 48

/-- The digit loop of `strconv.ParseUint` in base 10: `none` is the syntax error
raised at the first character that is not a decimal digit. The accumulator is
unbounded; the range check is made by the caller. -/
def ParseUint.loop : List Char → Nat → Option Nat
  | [], n => some n
  | c :: rest, n =>
    if c.isDigit then ParseUint.loop rest (n * 10 + digitValue c) else none

/-- Go `strconv.ParseUint(s, 10, 64)` without its range check: the empty string is
a syntax error. -/
def ParseUint (s : GoString) : Option Nat :=
  match s with
  | [] => none
  | _ :: _ => ParseUint.loop s 0

/-- The number of bits of Go's `int`. -/
def intSize : Nat := 64

/-- The largest `int`. -/
def maxInt : Int := 2 ^ (intSize - 1) - 1

/-- The smallest `int`. -/
def minInt : Int := -(2 ^ (intSize - 1))

/-- Go `strconv.Atoi`: an optional sign, then decimal digits, the value within the
range of `int`. `none` stands for a non-nil error (syntax or range). -/
def Atoi (s : GoString) : Option Int :=
  match s with
  | [] => none
  | c :: rest =>
    let neg := decide (c = '-')
    let body := if c = '+' ∨ c = '-' then rest else s
    match ParseUint body with
    | none => none
    | some un =>
      let cutoff : Nat := 2 ^ (intSize - 1)
      if !neg && decide (cutoff ≤ un) then none
      else if neg && decide (cutoff < un) then none
      else some (if neg then -(un : Int) else (un : Int))

/-- The extension-stripped stem: `strings.TrimSuffix(filename, filepath.Ext(filename))`. -/
def stem (filename : GoString) : GoString := TrimSuffix filename (Ext filename)

/-- Source `extractVersionFromFilename`: strip the extension, split on `_`, parse
the first part with `Atoi`, and return 0 when there is no part or no parse. -/
def extractVersionFromFilename (filename : GoString) : Int :=
  let stem := TrimSuffix filename (Ext filename)
  let parts := Split stem '_'
  match parts with
  | [] => 0
  | first :: _ =>
    match Atoi first with
    | none => 0
    | some version => version

/-! ## What the claims say about file names -/

/-- The number written by a string of decimal digits, in positional notation. -/
def decimalValue : List Char → Nat
  | [] => 0
  | c :: rest => digitValue c * 10 ^ rest.length + decimalValue rest

/-- A non-empty string of decimal digits. -/
def IsDigits (ds : GoString) : Prop := ds ≠ [] ∧ ∀ c ∈ ds, c.isDigit = true

/-- The string `s` is a decimal integer numeral writing `z`: an optional sign `+`
or `-` followed by a non-empty string of decimal digits. -/
def DenotesInteger (s : GoString) (z : Int) : Prop :=
  ∃ ds, IsDigits ds ∧
    ((s = ds ∧ z = decimalValue ds) ∨ (s = '+' :: ds ∧ z = decimalValue ds) ∨
      (s = '-' :: ds ∧ z = -(decimalValue ds : Int)))

/-- The string `s` is parseable as an integer of Go's type `int`, with value `z`. -/
def ParsesAsInt (s : GoString) (z : Int) : Prop :=
  DenotesInteger s z ∧ minInt ≤ z ∧ z ≤ maxInt

/-- The leading segment of a file name: the part of the extension-stripped stem
before the first underscore (the whole stem when it has none). -/
def leadingSegment (filename : GoString) : GoString :=
  (stem filename).takeWhile (fun c => c != '_')

instance (ds : GoString) : Decidable (IsDigits ds) := by
  unfold IsDigits; infer_instance

/-! ## Migration discovery -/

deriving instance DecidableEq for Except

/-- One entry of the listing returned by `os.ReadDir`: its `Name()` and `IsDir()`. -/
structure DirEntry where
  Name : GoString
  IsDir : Bool
deriving DecidableEq

/-- Source `Migration`: a database migration. -/
structure Migration where
  Filename : GoString
  Version : Int
  Description : GoString
deriving DecidableEq

/-- The type of `sort.Slice` at `[]Migration`: the comparison and the slice in, the
reordered slice out. The Go closure compares positions of the slice being sorted;
here it compares the elements at those positions. -/
abbrev SortSlice := (Migration → Migration → Bool) → List Migration → List Migration

/-- The comparison the source passes to `sort.Slice`:
`migrations[i].Version < migrations[j].Version`. -/
def versionLess (a b : Migration) : Bool := decide (a.Version < b.Version)

/-- A strict weak ordering, the requirement `sort` puts on a `less` function:
irreflexive, transitive, and with transitive incomparability. -/
structure StrictWeakOrder {α : Type} (less : α → α → Bool) : Prop where
  irrefl : ∀ a, less a a = false
  trans : ∀ a b c, less a b = true → less b c = true → less a c = true
  negTrans : ∀ a b c, less a b = false → less b c = false → less a c = false

/-- The documented contract of `sort.Slice`: it sorts the slice given the provided
`less` function, that is, the result is a rearrangement of the input in which no
element is less than an element before it. Stability is not promised. -/
def SortSliceContract (sortSlice : SortSlice) : Prop :=
  ∀ less xs, StrictWeakOrder less →
    (sortSlice less xs).Perm xs ∧ (sortSlice less xs).Pairwise (fun a b => less b a = false)

/-- The inner loop of Go `insertionSort_func`,
`for j := i; j > a && less(data[j], data[j-1]); j-- { swap(j, j-1) }`:
the element `x` moves towards the front past every element it is less than. The
elements before `x` are given nearest first, and so is the result. -/
def insertionSort_func.sink {α : Type} (less : α → α → Bool) (x : α) : List α → List α
  | [] => [x]
  | y :: before => if less x y then y :: insertionSort_func.sink less x before
                   else x :: y :: before

/-- Go `insertionSort_func` on a whole slice: each element in turn is sunk into the
sorted part before it. This is what `sort.Slice` runs on a slice of at most 12
elements. -/
def insertionSort_func {α : Type} (less : α → α → Bool) (data : List α) : List α :=
  (data.foldl (fun sorted x => insertionSort_func.sink less x sorted) []).reverse

/-- The body of the loop of `readMigrationFiles` over the directory entries:
directories and names whose extension is not `.sql` are skipped, every other entry
is appended as a `Migration`. -/
def readMigrationFiles.step (migrations : List Migration) (entry : DirEntry) :
    List Migration :=
  if entry.IsDir || Ext entry.Name != ".sql".toList then migrations
  else
    let filename := entry.Name
    let version := extractVersionFromFilename filename
    let description := filename
    migrations ++ [{ Filename := filename, Version := version, Description := description }]

/-- Source `readMigrationFiles`, given the result of `os.ReadDir(migrationsDir)`: an
error is passed on; otherwise the eligible entries are collected in listing order
and sorted by `sort.Slice` with the comparison on `Version`. -/
def readMigrationFiles (sortSlice : SortSlice)
    (readDir : Except GoString (List DirEntry)) : Except GoString (List Migration) :=
  match readDir with
  | .error err => .error err
  | .ok entries =>
    let migrations := entries.foldl readMigrationFiles.step []
    .ok (sortSlice versionLess migrations)

/-- An entry is eligible: not a directory, and its extension is exactly `.sql`. -/
def eligible (entry : DirEntry) : Bool :=
  !entry.IsDir && Ext entry.Name == ".sql".toList

/-- The migration the spec assigns to an eligible entry: the version parsed from
the name, the name as file name and as description. -/
def migrationOf (entry : DirEntry) : Migration :=
  { Filename := entry.Name, Version := extractVersionFromFilename entry.Name,
    Description := entry.Name }

/-- The eligible entries of a listing as migrations, in listing order. -/
def discovered (entries : List DirEntry) : List Migration :=
  (entries.filter eligible).map migrationOf

/-- A plain file entry. -/
def file (name : String) : DirEntry := { Name := name.toList, IsDir := false }

/-! ## A sort that meets the contract of `sort.Slice` and is not stable

The routines below follow Go's `sort` package (`zsortfunc.go`, Go 1.19 and later):
`sort.Slice` runs `pdqsort_func`, which insertion-sorts a slice of at most 12
elements and otherwise chooses a pivot, partitions around it and continues on both
sides. -/

/-- Go `data.Swap(i, j)`. -/
def swapAt {α : Type} (data : List α) (i j : Nat) : List α :=
  match data[i]?, data[j]? with
  | some x, some y => (data.set i y).set j x
  | _, _ => data

/-- Go `data.Less(i, j)`. -/
def lessAt {α : Type} (less : α → α → Bool) (data : List α) (i j : Nat) : Bool :=
  match data[i]?, data[j]? with
  | some x, some y => less x y
  | _, _ => false

/-- Go `order2_func`: the two positions ordered so that the element at the first is
not greater, and the swap counter. -/
def order2_func {α : Type} (less : α → α → Bool) (data : List α) (a b swaps : Nat) :
    Nat × Nat × Nat :=
  if lessAt less data b a then (b, a, swaps + 1) else (a, b, swaps)

/-- Go `median_func`: the position of the median of three elements, and the swap
counter. -/
def median_func {α : Type} (less : α → α → Bool) (data : List α) (a b c swaps : Nat) :
    Nat × Nat :=
  let (a, b, swaps) := order2_func less data a b swaps
  let (b, _, swaps) := order2_func less data b c swaps
  let (_, b, swaps) := order2_func less data a b swaps
  (b, swaps)

/-- Go `medianAdjacent_func`: the median of the elements at `a - 1`, `a`, `a + 1`. -/
def medianAdjacent_func {α : Type} (less : α → α → Bool) (data : List α) (a swaps : Nat) :
    Nat × Nat :=
  median_func less data (a - 1) a (a + 1) swaps

/-- Go `sortedHint`. -/
inductive sortedHint where
  | unknownHint
  | increasingHint
  | decreasingHint
deriving DecidableEq

/-- Go `choosePivot_func` on `data[a:b]`: a static pivot below 8 elements, the
median of three from 8, the Tukey ninther from 50; with the hint drawn from the
number of swaps. -/
def choosePivot_func {α : Type} (less : α → α → Bool) (data : List α) (a b : Nat) :
    Nat × sortedHint :=
  let l := b - a
  let i := a + l / 4 * 1
  let j := a + l / 4 * 2
  let k := a + l / 4 * 3
  let (j, swaps) :=
    if 8 ≤ l then
      if 50 ≤ l then
        let (i, swaps) := medianAdjacent_func less data i 0
        let (j, swaps) := medianAdjacent_func less data j swaps
        let (k, swaps) := medianAdjacent_func less data k swaps
        median_func less data i j k swaps
      else median_func less data i j k 0
    else (j, 0)
  if swaps = 0 then (j, sortedHint.increasingHint)
  else if swaps = 4 * 3 then (j, sortedHint.decreasingHint)
  else (j, sortedHint.unknownHint)

/-- The loop `for i <= j && less(data[i], data[a]) { i++ }` of `partition_func`. -/
def partition_func.up {α : Type} (less : α → α → Bool) (data : List α) (a j : Nat) :
    Nat → Nat → Nat
  | 0, i => i
  | fuel + 1, i =>
    if i ≤ j ∧ lessAt less data i a = true then partition_func.up less data a j fuel (i + 1)
    else i

/-- The loop `for i <= j && !less(data[j], data[a]) { j-- }` of `partition_func`. -/
def partition_func.down {α : Type} (less : α → α → Bool) (data : List α) (a i : Nat) :
    Nat → Nat → Nat
  | 0, j => j
  | fuel + 1, j =>
    if i ≤ j ∧ lessAt less data j a = false then
      partition_func.down less data a i fuel (j - 1)
    else j

/-- The main loop of `partition_func`: advance `i`, retreat `j`, stop when they
cross, otherwise swap the two elements and step both. -/
def partition_func.loop {α : Type} (less : α → α → Bool) (a : Nat) :
    Nat → List α → Nat → Nat → List α × Nat
  | 0, data, _, j => (data, j)
  | fuel + 1, data, i, j =>
    let i := partition_func.up less data a j data.length i
    let j := partition_func.down less data a i data.length j
    if j < i then (data, j)
    else partition_func.loop less a fuel (swapAt data i j) (i + 1) (j - 1)

/-- Go `partition_func` on `data[a:b]`: the pivot goes to the front, the rest is
split into the elements less than the pivot and the others, and the pivot is put
between them. Returns the slice, the new position of the pivot, and whether the
slice was already partitioned. -/
def partition_func {α : Type} (less : α → α → Bool) (data : List α) (a b pivot : Nat) :
    List α × Nat × Bool :=
  let data := swapAt data a pivot
  let i := partition_func.up less data a (b - 1) data.length (a + 1)
  let j := partition_func.down less data a i data.length (b - 1)
  if j < i then (swapAt data j a, j, true)
  else
    let data := swapAt data i j
    let (data, j) := partition_func.loop less a data.length data (i + 1) (j - 1)
    (swapAt data j a, j, false)

/-- A sort assembled from the routines of `pdqsort_func`: a slice of at most 12
elements is insertion-sorted; a longer one gets the pivot choice and the partition
of `pdqsort_func` and is then finished by insertion sort. Insertion sort never
moves an element across the pivot of a partitioned slice, so on a slice on which
`pdqsort_func` partitions once and insertion-sorts both sides this returns what
`pdqsort_func` returns. -/
def partitionThenInsertionSort : SortSlice := fun less data =>
  if data.length ≤ 12 then insertionSort_func less data
  else
    let (pivot, _) := choosePivot_func less data 0 data.length
    let (data, _, _) := partition_func less data 0 data.length pivot
    insertionSort_func less data

/-- A directory listing in the order `os.ReadDir` returns it (sorted by file name):
six files of version 1, one of version 0, six of version 1. -/
def tiedListing : List DirEntry :=
  [file "001_a.sql", file "001_b.sql", file "001_c.sql", file "001_d.sql",
   file "001_e.sql", file "001_f.sql", file "00_g.sql", file "01_h.sql",
   file "01_i.sql", file "01_j.sql", file "01_k.sql", file "01_l.sql", file "01_m.sql"]

/-- The migrations of a given version are kept, the others dropped. -/
def sameVersion (v : Int) (m : Migration) : Bool := m.Version == v

/-! ## Formatting -/

/-- An operand of `fmt.Sprintf`: an `int` or a `string`. -/
inductive Arg where
  | int (n : Int)
  | str (s : GoString)

/-- The decimal digits of a natural number, most significant first, pushed in front
of `acc`; the fuel bounds the number of digits. -/
def formatNat.loop : Nat → Nat → List Char → List Char
  | 0, _, acc => acc
  | fuel + 1, n, acc =>
    let acc := Char.ofNat (48 + n % 10) :: acc
    if n / 10 = 0 then acc else formatNat.loop fuel (n / 10) acc

/-- The decimal numeral of a natural number, without leading zeros. -/
def formatNat (n : Nat) : GoString := formatNat.loop (n + 1) n []

/-- The verb `%d` of `fmt` on an `int`: a minus sign for a negative number, then
the decimal digits of the magnitude. -/
def formatInt (n : Int) : GoString :=
  if n < 0 then '-' :: formatNat n.natAbs else formatNat n.natAbs

/-- Go `fmt.Sprintf` for the verbs the source uses: `%d` with an `int` operand, `%s`
with a `string` operand and `%v` with an `error` operand (given by its message) are
replaced by the operand, every other character is copied. -/
def Sprintf : List Char → List Arg → GoString
  | [], _ => []
  | [c], _ => [c]
  | c :: v :: rest, args =>
    match args with
    | Arg.int n :: args' =>
      if c = '%' ∧ v = 'd' then formatInt n ++ Sprintf rest args'
      else c :: Sprintf (v :: rest) args
    | Arg.str s :: args' =>
      if c = '%' ∧ (v = 's' ∨ v = 'v') then s ++ Sprintf rest args'
      else c :: Sprintf (v :: rest) args
    | [] => c :: Sprintf (v :: rest) args

/-! ## The manifest generator -/

/-- The record of one migration: the `fmt.Sprintf` call in the loop of
`generateRustMigrationContent`. -/
def migrationRecord (migration : Migration) : GoString :=
  Sprintf
    "        Migration \x7b version: %d, description: \"%s\", sql: include_str!(\"%s\"), kind: MigrationKind::Up \x7d,\n".toList
    [Arg.int migration.Version, Arg.str migration.Description, Arg.str migration.Filename]

/-- Source `generateRustMigrationContent`: the `strings.Builder` is the text written
so far, `WriteString` appends to it. -/
def generateRustMigrationContent (migrations : List Migration) : GoString :=
  let content : GoString := []
  let content := content ++ "use tauri_plugin_sql::\x7bMigration, MigrationKind\x7d;\n\n".toList
  let content := content ++ "pub fn load_migrations() -> Vec<Migration> \x7b\n".toList
  let content := content ++ "    vec![\n".toList
  let content := migrations.foldl
    (fun content migration => content ++ migrationRecord migration) content
  let content := content ++ "    ]\n".toList
  let content := content ++ "\x7d\n".toList
  content

/-- The double quote character. -/
def doubleQuote : Char := Char.ofNat 34

/-- The backslash character. -/
def backslash : Char := Char.ofNat 92

/-! ## Paths -/

/-- One step of `filepath.Clean` over the elements of a path, kept last first: empty
elements and `.` are dropped, `..` removes the element before it, stays when there
is none to remove in a path that is not rooted, and is dropped at the root. -/
def Clean.step (rooted : Bool) (kept : List GoString) (element : GoString) :
    List GoString :=
  if element = [] ∨ element = ".".toList then kept
  else if element = "..".toList then
    match kept with
    | [] => if rooted then [] else [element]
    | last :: before => if last = "..".toList then element :: kept else before
  else element :: kept

/-- Go `filepath.Clean`: the shortest path name equivalent to `path` by purely
lexical processing. -/
def Clean (path : GoString) : GoString :=
  if path = [] then ".".toList
  else
    let rooted := path.head? == some '/'
    let kept := (Split path '/').foldl (Clean.step rooted) []
    let body := "/".toList.intercalate kept.reverse
    if rooted then '/' :: body
    else if body = [] then ".".toList
    else body

/-- Go `filepath.Join`: the elements from the first non-empty one on, separated by
`/`, and the result cleaned; the empty string when every element is empty. -/
def Join (elem : List GoString) : GoString :=
  match elem.dropWhile (fun e => e == []) with
  | [] => []
  | rest => Clean ("/".toList.intercalate rest)

/-! ## The operating system -/

/-- The outcome of `os.Stat`: a nil error, an error for which `os.IsNotExist` holds,
or another error. -/
inductive StatResult where
  | ok
  | notExist
  | otherError
deriving DecidableEq

/-- The state of the operating system as one run of a command sees it: the answers
of `os.Getwd`, of `os.Stat` and `os.ReadDir` by path, and of
`os.WriteFile(name, data, 0644)` by name and data (`none` is a nil error). A run
reads before it writes, once, so the answers do not change during a run. -/
structure World where
  getwd : Except GoString GoString
  stat : GoString → StatResult
  readDir : GoString → Except GoString (List DirEntry)
  writeFile : GoString → GoString → Option GoString

/-- What a run does, in order: text printed to standard output and calls to the
operating system. -/
inductive Effect where
  | print (text : GoString)
  | getwd
  | stat (name : GoString)
  | readDir (name : GoString)
  | writeFile (name : GoString) (data : GoString) (perm : Nat)
deriving DecidableEq

/-- The outcome of a run: its effects and the returned `error` (`none` is nil,
otherwise the message). -/
structure Run where
  effects : List Effect
  err : Option GoString
deriving DecidableEq

/-- Go `fmt.Println` of one string. -/
def Println (text : String) : Effect := Effect.print (text.toList ++ "\n".toList)

/-- Go `fmt.Printf`. -/
def Printf (format : String) (args : List Arg) : Effect :=
  Effect.print (Sprintf format.toList args)

/-- Go `fmt.Errorf`, as the message of the error. -/
def Errorf (format : String) (args : List Arg) : Option GoString :=
  some (Sprintf format.toList args)

/-- The path `filepath.Join(projectRoot, "src-tauri", "migrations")`. -/
def migrationsDirOf (projectRoot : GoString) : GoString :=
  Join [projectRoot, "src-tauri".toList, "migrations".toList]

/-- The path `filepath.Join(migrationsDir, "generated_migrations.rs")`. -/
def outFileOf (projectRoot : GoString) : GoString :=
  Join [migrationsDirOf projectRoot, "generated_migrations.rs".toList]

/-- The effect is a call of `os.WriteFile`. -/
def Effect.isWriteFile : Effect → Bool
  | Effect.writeFile _ _ _ => true
  | _ => false

/-! ## The commands -/

/-- Source `runMigrationGenerate`. -/
def runMigrationGenerate (sortSlice : SortSlice) (w : World) (verbose force : Bool) : Run :=
  let out := [Println "🔄 Generating migration files...", Effect.getwd]
  match w.getwd with
  | .error err => ⟨out, Errorf "failed to get current directory: %v" [Arg.str err]⟩
  | .ok projectRoot =>
    let migrationsDir := Join [projectRoot, "src-tauri".toList, "migrations".toList]
    let out := out ++ [Effect.stat migrationsDir]
    if w.stat migrationsDir = StatResult.notExist then
      ⟨out, Errorf "migrations directory not found: %s" [Arg.str migrationsDir]⟩
    else
      let outFile := Join [migrationsDir, "generated_migrations.rs".toList]
      let out := out ++ [Effect.stat outFile]
      if w.stat outFile = StatResult.ok ∧ force = false then
        ⟨out ++ [Printf "⚠️  Generated file already exists: %s\n" [Arg.str outFile],
                 Println "💡 Use --force flag to overwrite"], none⟩
      else
        let out := out ++ [Effect.readDir migrationsDir]
        match readMigrationFiles sortSlice (w.readDir migrationsDir) with
        | .error err => ⟨out, Errorf "failed to read migration files: %v" [Arg.str err]⟩
        | .ok migrations =>
          if migrations.length = 0 then
            ⟨out ++ [Println "⚠️  No SQL migration files found"], none⟩
          else
            let out := out ++
              (if verbose then
                Printf "📖 Found %d migration(s):\n" [Arg.int migrations.length] ::
                  migrations.map (fun m =>
                    Printf "   - %s (version: %d)\n" [Arg.str m.Filename, Arg.int m.Version])
              else [])
            let rustContent := generateRustMigrationContent migrations
            let out := out ++ [Effect.writeFile outFile rustContent 0o644]
            match w.writeFile outFile rustContent with
            | some err => ⟨out, Errorf "failed to write generated file: %v" [Arg.str err]⟩
            | none =>
              let relativeOutFile := "src-tauri/migrations/generated_migrations.rs".toList
              if verbose then
                ⟨out ++ [Printf "✅ Generated: %s\n" [Arg.str relativeOutFile],
                         Println "\n🎉 Migration generation completed successfully!"], none⟩
              else
                ⟨out ++ [Println "✅ Migration generation completed!"], none⟩

/-- The state of the duplicate check of `runMigrationValidate`: the map from a
version to the first file name seen with it, the flag, and what was printed. -/
structure DuplicateCheck where
  versionMap : Int → Option GoString
  duplicates : Bool
  printed : List Effect

/-- The body of the loop of the duplicate check: a version already in the map is
reported and raises the flag, a new one is entered with the file name. -/
def runMigrationValidate.step (check : DuplicateCheck) (migration : Migration) :
    DuplicateCheck :=
  match check.versionMap migration.Version with
  | some existing =>
    { check with
      printed := check.printed ++
        [Printf "❌ Duplicate version %d: %s and %s\n"
          [Arg.int migration.Version, Arg.str existing, Arg.str migration.Filename]],
      duplicates := true }
  | none =>
    { check with
      versionMap := fun version =>
        if version = migration.Version then some migration.Filename
        else check.versionMap version }

/-- The duplicate check of `runMigrationValidate` over the whole set, from the empty
map. -/
def runMigrationValidate.check (migrations : List Migration) : DuplicateCheck :=
  migrations.foldl runMigrationValidate.step
    { versionMap := fun _ => none, duplicates := false, printed := [] }

/-- Source `runMigrationValidate`. -/
def runMigrationValidate (sortSlice : SortSlice) (w : World) (verbose : Bool) : Run :=
  let out := [Println "✅ Validating migrations...", Effect.getwd]
  match w.getwd with
  | .error err => ⟨out, Errorf "failed to get current directory: %v" [Arg.str err]⟩
  | .ok projectRoot =>
    let migrationsDir := Join [projectRoot, "src-tauri".toList, "migrations".toList]
    let out := out ++ [Effect.stat migrationsDir]
    if w.stat migrationsDir = StatResult.notExist then
      ⟨out, Errorf "migrations directory not found: %s" [Arg.str migrationsDir]⟩
    else
      let out := out ++ [Effect.readDir migrationsDir]
      match readMigrationFiles sortSlice (w.readDir migrationsDir) with
      | .error err => ⟨out, Errorf "failed to read migration files: %v" [Arg.str err]⟩
      | .ok migrations =>
        if migrations.length = 0 then
          ⟨out ++ [Println "⚠️  No SQL migration files found"], none⟩
        else
          let out := out ++
            (if verbose then
              [Println "🔍 Checking filename formats...",
               Println "🔍 Validating version numbers...",
               Println "🔍 Checking for duplicates..."]
            else [])
          let check := runMigrationValidate.check migrations
          let out := out ++ check.printed
          if check.duplicates then
            ⟨out, Errorf "validation failed: duplicate version numbers found" []⟩
          else
            ⟨out ++ [Printf "✅ All %d migrations are valid!\n" [Arg.int migrations.length]],
             none⟩

/-- Two entries of the set have the same version. -/
def HasDuplicateVersion (migrations : List Migration) : Prop :=
  ∃ i j : Fin migrations.length, i < j ∧
    (migrations.get i).Version = (migrations.get j).Version

/-- The operating system of `w2` answers as that of `w1` on everything a run started
in `projectRoot` asks, except possibly on `os.Stat` of the generated file. -/
def SameButArtifact (w1 w2 : World) (projectRoot : GoString) : Prop :=
  w2.getwd = w1.getwd ∧ w2.readDir = w1.readDir ∧ w2.writeFile = w1.writeFile ∧
    w2.stat (migrationsDirOf projectRoot) = w1.stat (migrationsDirOf projectRoot)

/-- A project at `/project` whose migrations directory exists and holds the given
entries, with or without a generated file, and where writing succeeds. -/
def projectWorld (entries : List DirEntry) (artifact : Bool) : World :=
  { getwd := .ok "/project".toList,
    stat := fun name =>
      if name = "/project/src-tauri/migrations".toList then StatResult.ok
      else if name = "/project/src-tauri/migrations/generated_migrations.rs".toList ∧
          artifact = true then StatResult.ok
      else StatResult.notExist,
    readDir := fun _ => .ok entries,
    writeFile := fun _ _ => none }

/-! ## What the claims say about the duplicate check -/

/-- The line the duplicate check prints for one conflict: the version, the file name
first seen with it, and the file name of the entry that repeats it. -/
def conflictReport (version : Int) (existing filename : GoString) : Effect :=
  Printf "❌ Duplicate version %d: %s and %s\n"
    [Arg.int version, Arg.str existing, Arg.str filename]

/-- The first of the entries `earlier` that has the given version. -/
def firstWithVersion (earlier : List Migration) (version : Int) : Option Migration :=
  earlier.find? (fun m => m.Version == version)

/-- The conflicts the spec asks for, in set order: going through the set after the
entries `earlier`, an entry whose version occurs among the entries before it gives
one conflict, pairing the file name of the first entry of that version with its
own; an entry with a new version gives none. -/
def expectedConflicts (earlier : List Migration) : List Migration → List Effect
  | [] => []
  | m :: rest =>
    (match firstWithVersion earlier m.Version with
      | some first => [conflictReport m.Version first.Filename m.Filename]
      | none => []) ++ expectedConflicts (earlier ++ [m]) rest

/-- The effect is a conflict line of the duplicate check: printed text that begins
with `❌ Duplicate version `. -/
def isConflictReport : Effect → Bool
  | Effect.print text => "❌ Duplicate version ".toList.isPrefixOf text
  | _ => false

/-! ## The filename version parser -/

theorem sql_toList : ".sql".toList = ['.', 's', 'q', 'l'] := rfl

theorem Ext_append_sql (s : GoString) : Ext (s ++ ".sql".toList) = ".sql".toList := by
  simp [Ext, Ext.scan, sql_toList]

theorem TrimSuffix_append (s t : GoString) : TrimSuffix (s ++ t) t = s := by
  simp [TrimSuffix, HasSuffix]

theorem stem_append_sql (s : GoString) : stem (s ++ ".sql".toList) = s := by
  unfold stem
  rw [Ext_append_sql, TrimSuffix_append]

theorem Split_ne_nil (s : GoString) (sep : Char) : Split s sep ≠ [] := by
  induction s with
  | nil => simp [Split]
  | cons c rest ih =>
    unfold Split
    split
    · simp
    · split <;> simp

theorem Split_head (s : GoString) (sep : Char) :
    (Split s sep).head? = some (s.takeWhile (fun c => c != sep)) := by
  induction s with
  | nil => simp [Split]
  | cons c rest ih =>
    unfold Split
    by_cases h : c = sep
    · simp [h]
    · simp only [h, if_false]
      cases hs : Split rest sep with
      | nil => exact absurd hs (Split_ne_nil rest sep)
      | cons part parts =>
        rw [hs] at ih
        simp at ih
        simp [List.takeWhile_cons, h, ih]

theorem extract_eq (filename : GoString) :
    extractVersionFromFilename filename = (Atoi (leadingSegment filename)).getD 0 := by
  unfold extractVersionFromFilename leadingSegment stem
  have h := Split_head (TrimSuffix filename (Ext filename)) '_'
  cases hs : Split (TrimSuffix filename (Ext filename)) '_' with
  | nil => exact absurd hs (Split_ne_nil _ _)
  | cons first rest =>
    rw [hs] at h
    simp only [List.head?_cons, Option.some.injEq] at h
    subst h
    simp only [hs]
    cases hA : Atoi (List.takeWhile (fun c => c != '_') (TrimSuffix filename (Ext filename))) <;>
      simp

theorem ParseUint_loop_digits (ds : List Char) (n : Nat) (h : ∀ c ∈ ds, c.isDigit = true) :
    ParseUint.loop ds n = some (n * 10 ^ ds.length + decimalValue ds) := by
  induction ds generalizing n with
  | nil => simp [ParseUint.loop, decimalValue]
  | cons c rest ih =>
    have hc : c.isDigit = true := h c (List.mem_cons_self _ _)
    have hrest : ∀ d ∈ rest, d.isDigit = true := fun d hd => h d (List.mem_cons_of_mem _ hd)
    simp only [ParseUint.loop, hc, if_true, ih _ hrest, decimalValue, List.length_cons,
      Option.some.injEq]
    ring

theorem ParseUint_loop_isDigit (ds : List Char) (n m : Nat)
    (h : ParseUint.loop ds n = some m) : ∀ c ∈ ds, c.isDigit = true := by
  induction ds generalizing n with
  | nil => simp
  | cons c rest ih =>
    by_cases hc : c.isDigit = true
    · simp only [ParseUint.loop, hc, if_true] at h
      intro d hd
      rcases List.mem_cons.mp hd with rfl | hd
      · exact hc
      · exact ih _ h d hd
    · simp [ParseUint.loop, hc] at h

theorem ParseUint_eq_some_iff (s : GoString) (n : Nat) :
    ParseUint s = some n ↔ IsDigits s ∧ n = decimalValue s := by
  cases s with
  | nil => simp [ParseUint, IsDigits]
  | cons c rest =>
    constructor
    · intro h
      have hd := ParseUint_loop_isDigit (c :: rest) 0 n h
      have := ParseUint_loop_digits (c :: rest) 0 hd
      simp only [ParseUint] at h
      rw [h] at this
      simp at this
      exact ⟨⟨by simp, hd⟩, this⟩
    · rintro ⟨⟨_, hd⟩, rfl⟩
      simp only [ParseUint]
      rw [ParseUint_loop_digits _ 0 hd]
      simp

theorem isDigit_ne_sign (c : Char) (h : c.isDigit = true) : c ≠ '+' ∧ c ≠ '-' := by
  constructor <;> (rintro rfl; revert h; decide)

theorem Atoi_minus (rest : GoString) :
    Atoi ('-' :: rest) =
      (ParseUint rest).bind fun un =>
        if 2 ^ 63 < un then none else some (-(un : Int)) := by
  cases h : ParseUint rest with
  | none => simp [Atoi, h]
  | some un => by_cases hu : 2 ^ 63 < un <;> simp [Atoi, h, intSize, hu]

theorem Atoi_plus (rest : GoString) :
    Atoi ('+' :: rest) =
      (ParseUint rest).bind fun un =>
        if 2 ^ 63 ≤ un then none else some (un : Int) := by
  cases h : ParseUint rest with
  | none => simp [Atoi, h]
  | some un => by_cases hu : 2 ^ 63 ≤ un <;> simp [Atoi, h, intSize, hu]

theorem Atoi_unsigned (c : Char) (rest : GoString) (hp : c ≠ '+') (hm : c ≠ '-') :
    Atoi (c :: rest) =
      (ParseUint (c :: rest)).bind fun un =>
        if 2 ^ 63 ≤ un then none else some (un : Int) := by
  cases h : ParseUint (c :: rest) with
  | none => simp [Atoi, h, hp, hm]
  | some un => by_cases hu : 2 ^ 63 ≤ un <;> simp [Atoi, h, intSize, hu, hp, hm]

theorem Atoi_of_ParsesAsInt (s : GoString) (z : Int) (h : ParsesAsInt s z) :
    Atoi s = some z := by
  obtain ⟨⟨ds, hds, hcase⟩, hlo, hhi⟩ := h
  have hP : ParseUint ds = some (decimalValue ds) := (ParseUint_eq_some_iff ds _).mpr ⟨hds, rfl⟩
  simp only [minInt, maxInt, intSize] at hlo hhi
  norm_num at hlo hhi
  rcases hcase with ⟨rfl, rfl⟩ | ⟨rfl, rfl⟩ | ⟨rfl, rfl⟩
  · cases s with
    | nil => exact absurd rfl hds.1
    | cons c rest =>
      obtain ⟨h1, h2⟩ := isDigit_ne_sign c (hds.2 c (List.mem_cons_self _ _))
      rw [Atoi_unsigned c rest h1 h2, hP]
      have : ¬ (2 ^ 63 ≤ decimalValue (c :: rest)) := by norm_num; omega
      simp only [Option.some_bind, if_neg this]
  · rw [Atoi_plus, hP]
    have : ¬ (2 ^ 63 ≤ decimalValue ds) := by norm_num; omega
    simp only [Option.some_bind, if_neg this]
  · rw [Atoi_minus, hP]
    have : ¬ (2 ^ 63 < decimalValue ds) := by norm_num; omega
    simp only [Option.some_bind, if_neg this]

theorem ParsesAsInt_of_bind (ds : GoString) (z : Int)
    (h : ((ParseUint ds).bind fun un =>
        if 2 ^ 63 ≤ un then none else some (un : Int)) = some z) :
    IsDigits ds ∧ z = decimalValue ds ∧ minInt ≤ z ∧ z ≤ maxInt := by
  cases hP : ParseUint ds with
  | none => simp [hP] at h
  | some un =>
    obtain ⟨hds, rfl⟩ := (ParseUint_eq_some_iff _ _).mp hP
    simp only [hP, Option.some_bind] at h
    split at h
    · simp at h
    · rename_i hu
      simp only [Option.some.injEq] at h
      subst h
      refine ⟨hds, rfl, ?_, ?_⟩ <;> simp only [minInt, maxInt, intSize] <;> norm_num at hu ⊢ <;>
        omega

theorem ParsesAsInt_of_Atoi (s : GoString) (z : Int) (h : Atoi s = some z) :
    ParsesAsInt s z := by
  cases s with
  | nil => simp [Atoi] at h
  | cons c rest =>
    by_cases hm : c = '-'
    · subst hm
      rw [Atoi_minus] at h
      cases hP : ParseUint rest with
      | none => simp [hP] at h
      | some un =>
        obtain ⟨hds, rfl⟩ := (ParseUint_eq_some_iff _ _).mp hP
        simp only [hP, Option.some_bind] at h
        split at h
        · simp at h
        · rename_i hu
          simp only [Option.some.injEq] at h
          subst h
          refine ⟨⟨rest, hds, Or.inr (Or.inr ⟨rfl, rfl⟩)⟩, ?_, ?_⟩ <;>
            simp only [minInt, maxInt, intSize] <;> norm_num at hu ⊢ <;> omega
    · by_cases hp : c = '+'
      · subst hp
        rw [Atoi_plus] at h
        obtain ⟨hds, hz, hlo, hhi⟩ := ParsesAsInt_of_bind rest z h
        exact ⟨⟨rest, hds, Or.inr (Or.inl ⟨rfl, hz⟩)⟩, hlo, hhi⟩
      · rw [Atoi_unsigned c rest hp hm] at h
        obtain ⟨hds, hz, hlo, hhi⟩ := ParsesAsInt_of_bind (c :: rest) z h
        exact ⟨⟨c :: rest, hds, Or.inl ⟨rfl, hz⟩⟩, hlo, hhi⟩

theorem Atoi_eq_some_iff (s : GoString) (z : Int) : Atoi s = some z ↔ ParsesAsInt s z :=
  ⟨ParsesAsInt_of_Atoi s z, Atoi_of_ParsesAsInt s z⟩

theorem Atoi_digits (ds : GoString) (h : IsDigits ds) :
    Atoi ds = if 2 ^ 63 ≤ decimalValue ds then none else some (decimalValue ds : Int) := by
  cases ds with
  | nil => exact absurd rfl h.1
  | cons c rest =>
    obtain ⟨h1, h2⟩ := isDigit_ne_sign c (h.2 c (List.mem_cons_self _ _))
    rw [Atoi_unsigned c rest h1 h2, (ParseUint_eq_some_iff _ _).mpr ⟨h, rfl⟩]
    rfl

theorem takeWhile_digits_underscore (ds x : GoString) (h : ∀ c ∈ ds, c.isDigit = true) :
    (ds ++ '_' :: x).takeWhile (fun c => c != '_') = ds := by
  induction ds with
  | nil => simp
  | cons c rest ih =>
    have hc : c ≠ '_' := by
      have := h c (List.mem_cons_self _ _)
      rintro rfl
      revert this
      decide
    have hrest : ∀ d ∈ rest, d.isDigit = true := fun d hd => h d (List.mem_cons_of_mem _ hd)
    simp [List.takeWhile_cons, hc, ih hrest]

theorem leadingSegment_digit_prefix (ds x : GoString) (h : IsDigits ds) :
    leadingSegment (ds ++ '_' :: x ++ ".sql".toList) = ds := by
  have : ds ++ '_' :: x ++ ".sql".toList = (ds ++ '_' :: x) ++ ".sql".toList := by simp
  rw [leadingSegment, this, stem_append_sql, takeWhile_digits_underscore ds x h.2]

theorem not_parses_of_Atoi_none (s : GoString) (h : Atoi s = none) :
    ¬ ∃ z, ParsesAsInt s z := by
  rintro ⟨z, hz⟩
  rw [(Atoi_eq_some_iff s z).mpr hz] at h
  exact Option.noConfusion h

theorem leadingSegment_eq_stem (filename : GoString) (h : '_' ∉ stem filename) :
    leadingSegment filename = stem filename := by
  unfold leadingSegment
  rw [List.takeWhile_eq_self_iff]
  intro c hc
  have : c ≠ '_' := fun hcu => h (hcu ▸ hc)
  simpa using this

/-- C1 (as stated, refuted): `9223372036854775808_a.sql` has the form `NNNN_x.sql`
with `NNNN` a non-empty string of digits of value 2^63, and the parser returns 0,
not that value. -/
theorem extractVersion_digit_prefix_overflow :
    IsDigits "9223372036854775808".toList ∧
    extractVersionFromFilename
        ("9223372036854775808".toList ++ '_' :: "a".toList ++ ".sql".toList) = 0 ∧
    decimalValue "9223372036854775808".toList = 9223372036854775808 := by
  refine ⟨by decide, by decide, by decide⟩

/-- C1 (amended): for every file name `NNNN_x.sql` with `NNNN` a non-empty string of
decimal digits and `x` any suffix, `extractVersionFromFilename` returns the integer
value of `NNNN` when that value fits Go's `int` (at most 2^63 - 1), and 0 when it
does not. -/
theorem extractVersion_digit_prefix (ds x : GoString) (hds : IsDigits ds) :
    extractVersionFromFilename (ds ++ '_' :: x ++ ".sql".toList) =
      if (decimalValue ds : Int) ≤ maxInt then (decimalValue ds : Int) else 0 := by
  rw [extract_eq, leadingSegment_digit_prefix ds x hds, Atoi_digits ds hds]
  simp only [maxInt, intSize]
  by_cases h : 2 ^ 63 ≤ decimalValue ds
  · have : ¬ ((decimalValue ds : Int) ≤ 2 ^ (64 - 1) - 1) := by norm_num at h ⊢; omega
    simp only [if_pos h, if_neg this, Option.getD_none]
  · have : (decimalValue ds : Int) ≤ 2 ^ (64 - 1) - 1 := by norm_num at h ⊢; omega
    simp only [if_neg h, if_pos this, Option.getD_some]

/-- Witness of C1 (amended) at `0007_init.sql`: the parser returns 7. -/
theorem extractVersion_digit_prefix_witness :
    IsDigits "0007".toList ∧
    extractVersionFromFilename ("0007".toList ++ '_' :: "init".toList ++ ".sql".toList) =
      if (decimalValue "0007".toList : Int) ≤ maxInt
        then (decimalValue "0007".toList : Int) else 0 :=
  ⟨by decide, extractVersion_digit_prefix "0007".toList "init".toList (by decide)⟩

/-- C2: for every file name whose leading segment (the part of the
extension-stripped stem before the first underscore) is not parseable as an
integer of type `int`, `extractVersionFromFilename` returns 0; the function is
total, so it never fails. -/
theorem extractVersion_unparseable (filename : GoString)
    (h : ¬ ∃ z, ParsesAsInt (leadingSegment filename) z) :
    extractVersionFromFilename filename = 0 := by
  rw [extract_eq]
  cases hA : Atoi (leadingSegment filename) with
  | none => rfl
  | some z => exact absurd ⟨z, (Atoi_eq_some_iff _ z).mp hA⟩ h

/-- Witness of C2 at `_init.sql`, whose leading segment is empty. -/
theorem extractVersion_unparseable_witness :
    (¬ ∃ z, ParsesAsInt (leadingSegment "_init.sql".toList) z) ∧
    extractVersionFromFilename "_init.sql".toList = 0 :=
  ⟨not_parses_of_Atoi_none _ (by decide),
   extractVersion_unparseable "_init.sql".toList (not_parses_of_Atoi_none _ (by decide))⟩

/-- C3 (as stated, refuted): the stem of `0007.sql` contains no underscore, and the
parser returns 7, not the sentinel 0. -/
theorem extractVersion_no_separator_digits :
    '_' ∉ stem "0007.sql".toList ∧ extractVersionFromFilename "0007.sql".toList = 7 := by
  refine ⟨by decide, by decide⟩

/-- C3 (amended): for every file name whose extension-stripped stem contains no
underscore, `extractVersionFromFilename` parses the whole stem: it returns the
integer the stem writes when the stem is parseable as an `int`, and the sentinel 0
when it is not. -/
theorem extractVersion_no_separator (filename : GoString) (h : '_' ∉ stem filename) :
    (∀ z, ParsesAsInt (stem filename) z → extractVersionFromFilename filename = z) ∧
    ((¬ ∃ z, ParsesAsInt (stem filename) z) → extractVersionFromFilename filename = 0) := by
  rw [extract_eq, leadingSegment_eq_stem filename h]
  constructor
  · intro z hz
    rw [(Atoi_eq_some_iff _ z).mpr hz]
    rfl
  · intro hn
    cases hA : Atoi (stem filename) with
    | none => rfl
    | some z => exact absurd ⟨z, (Atoi_eq_some_iff _ z).mp hA⟩ hn

/-- Witness of C3 (amended) at `migration.sql`: no underscore, no parse, result 0. -/
theorem extractVersion_no_separator_witness :
    '_' ∉ stem "migration.sql".toList ∧
    extractVersionFromFilename "migration.sql".toList = 0 :=
  ⟨by decide,
   (extractVersion_no_separator "migration.sql".toList (by decide)).2
     (not_parses_of_Atoi_none _ (by decide))⟩

/-! ## Migration discovery -/

theorem foldl_step_eq (entries : List DirEntry) (acc : List Migration) :
    entries.foldl readMigrationFiles.step acc = acc ++ discovered entries := by
  induction entries generalizing acc with
  | nil => simp [discovered]
  | cons e rest ih =>
    rw [List.foldl_cons, ih]
    by_cases h : eligible e = true
    · have h' := h
      simp only [eligible, Bool.and_eq_true, Bool.not_eq_true', beq_iff_eq] at h'
      simp [readMigrationFiles.step, discovered, h, h'.1, h'.2, migrationOf]
    · have h' := h
      simp only [eligible, Bool.and_eq_true, Bool.not_eq_true', beq_iff_eq, not_and] at h'
      have : (e.IsDir || Ext e.Name != ".sql".toList) = true := by
        cases hd : e.IsDir
        · simpa using h' hd
        · rfl
      have hd : discovered (e :: rest) = discovered rest := by
        simp only [discovered, List.filter_cons, h, Bool.false_eq_true, if_false]
      rw [hd]
      simp only [readMigrationFiles.step, this, if_true]

theorem readMigrationFiles_ok (sortSlice : SortSlice) (entries : List DirEntry) :
    readMigrationFiles sortSlice (.ok entries) =
      .ok (sortSlice versionLess (discovered entries)) := by
  simp [readMigrationFiles, foldl_step_eq]

theorem versionLess_strictWeakOrder : StrictWeakOrder versionLess where
  irrefl := by intro a; simp [versionLess]
  trans := by
    intro a b c h1 h2
    simp only [versionLess, decide_eq_true_eq] at *
    omega
  negTrans := by
    intro a b c h1 h2
    simp only [versionLess, decide_eq_false_iff_not] at *
    omega

/-! ### Insertion sort -/

theorem sink_perm {α : Type} (less : α → α → Bool) (x : α) (l : List α) :
    (insertionSort_func.sink less x l).Perm (x :: l) := by
  induction l with
  | nil => exact List.Perm.refl _
  | cons y rest ih =>
    unfold insertionSort_func.sink
    split
    · exact (List.Perm.cons y ih).trans (List.Perm.swap x y rest)
    · exact List.Perm.refl _

theorem sink_sorted {α : Type} (less : α → α → Bool) (hless : StrictWeakOrder less) (x : α)
    (l : List α) (hl : l.Pairwise (fun a b => less a b = false)) :
    (insertionSort_func.sink less x l).Pairwise (fun a b => less a b = false) := by
  induction l with
  | nil => simp [insertionSort_func.sink]
  | cons y rest ih =>
    rw [List.pairwise_cons] at hl
    unfold insertionSort_func.sink
    split
    · rename_i hxy
      rw [List.pairwise_cons]
      refine ⟨?_, ih hl.2⟩
      intro a ha
      rcases List.mem_cons.mp ((sink_perm less x rest).subset ha) with rfl | ha
      · cases hyx : less y a with
        | false => rfl
        | true => have := hless.trans _ _ _ hyx hxy; rw [hless.irrefl] at this; cases this
      · exact hl.1 a ha
    · rename_i hxy
      have hxy : less x y = false := by simpa using hxy
      rw [List.pairwise_cons, List.pairwise_cons]
      refine ⟨?_, hl⟩
      intro a ha
      rcases List.mem_cons.mp ha with rfl | ha
      · exact hxy
      · exact hless.negTrans _ _ _ hxy (hl.1 a ha)

theorem foldl_sink_perm {α : Type} (less : α → α → Bool) (data acc : List α) :
    (data.foldl (fun sorted x => insertionSort_func.sink less x sorted) acc).Perm
      (data.reverse ++ acc) := by
  induction data generalizing acc with
  | nil => simp
  | cons x rest ih =>
    rw [List.foldl_cons]
    refine (ih _).trans ?_
    rw [List.reverse_cons, List.append_assoc]
    exact List.Perm.append_left _ (sink_perm less x acc)

theorem foldl_sink_sorted {α : Type} (less : α → α → Bool) (hless : StrictWeakOrder less)
    (data acc : List α) (hacc : acc.Pairwise (fun a b => less a b = false)) :
    (data.foldl (fun sorted x => insertionSort_func.sink less x sorted) acc).Pairwise
      (fun a b => less a b = false) := by
  induction data generalizing acc with
  | nil => exact hacc
  | cons x rest ih =>
    rw [List.foldl_cons]
    exact ih _ (sink_sorted less hless x acc hacc)

theorem insertionSort_func_perm {α : Type} (less : α → α → Bool) (data : List α) :
    (insertionSort_func less data).Perm data := by
  unfold insertionSort_func
  refine (List.reverse_perm _).trans ((foldl_sink_perm less data []).trans ?_)
  simp

theorem insertionSort_func_sorted {α : Type} (less : α → α → Bool)
    (hless : StrictWeakOrder less) (data : List α) :
    (insertionSort_func less data).Pairwise (fun a b => less b a = false) := by
  unfold insertionSort_func
  rw [List.pairwise_reverse]
  exact foldl_sink_sorted less hless data [] List.Pairwise.nil

theorem insertionSort_contract : SortSliceContract insertionSort_func :=
  fun less xs hless => ⟨insertionSort_func_perm less xs, insertionSort_func_sorted less hless xs⟩

theorem sink_filter {α : Type} (less : α → α → Bool) (p : α → Bool)
    (hp : ∀ a b, less a b = true → p a = true → p b = true → False) (x : α) (l : List α) :
    (insertionSort_func.sink less x l).filter p = (x :: l).filter p := by
  induction l with
  | nil => rfl
  | cons y rest ih =>
    unfold insertionSort_func.sink
    split
    · rename_i hxy
      rw [List.filter_cons, ih]
      cases hpy : p y with
      | false => simp [List.filter_cons, hpy]
      | true =>
        cases hpx : p x with
        | false => simp [List.filter_cons, hpy, hpx]
        | true => exact absurd hpy (fun h => hp x y hxy hpx h)
    · rfl

theorem foldl_sink_filter {α : Type} (less : α → α → Bool) (p : α → Bool)
    (hp : ∀ a b, less a b = true → p a = true → p b = true → False) (data acc : List α) :
    (data.foldl (fun sorted x => insertionSort_func.sink less x sorted) acc).filter p =
      (data.reverse ++ acc).filter p := by
  induction data generalizing acc with
  | nil => simp
  | cons x rest ih =>
    rw [List.foldl_cons, ih, List.filter_append, sink_filter less p hp, List.reverse_cons,
      List.append_assoc, List.filter_append]
    rfl

theorem insertionSort_func_filter {α : Type} (less : α → α → Bool) (p : α → Bool)
    (hp : ∀ a b, less a b = true → p a = true → p b = true → False) (data : List α) :
    (insertionSort_func less data).filter p = data.filter p := by
  unfold insertionSort_func
  rw [List.filter_reverse, foldl_sink_filter less p hp]
  simp

/-! ### The partition of `pdqsort_func` -/

theorem indicator_le_count {α : Type} [DecidableEq α] (data : List α) (i : Nat)
    (hi : i < data.length) (a : α) :
    (if (data[i] == a) = true then 1 else 0) ≤ data.count a := by
  split
  · rename_i h
    have h' : data[i] = a := by simpa using h
    have : a ∈ data := h' ▸ List.getElem_mem _
    exact List.count_pos_iff.mpr this
  · exact Nat.zero_le _

theorem swapAt_perm {α : Type} [DecidableEq α] (data : List α) (i j : Nat) :
    (swapAt data i j).Perm data := by
  unfold swapAt
  split
  · rename_i x y hx hy
    obtain ⟨hi, rfl⟩ := List.getElem?_eq_some_iff.mp hx
    obtain ⟨hj, rfl⟩ := List.getElem?_eq_some_iff.mp hy
    rw [List.perm_iff_count]
    intro a
    rw [List.count_set _ _ _ _ (by simpa using hj), List.count_set _ _ _ _ hi,
      List.getElem_set]
    have h1 := indicator_le_count data i hi a
    have h2 := indicator_le_count data j hj a
    by_cases hij : i = j
    · subst hij
      simp only [if_true]
      omega
    · simp only [hij, if_false]
      generalize (if (data[i] == a) = true then 1 else 0) = A at *
      generalize (if (data[j] == a) = true then 1 else 0) = B at *
      omega
  · exact List.Perm.refl _

theorem partition_loop_perm {α : Type} [DecidableEq α] (less : α → α → Bool) (a fuel : Nat)
    (data : List α) (i j : Nat) :
    (partition_func.loop less a fuel data i j).1.Perm data := by
  induction fuel generalizing data i j with
  | zero => exact List.Perm.refl _
  | succ fuel ih =>
    unfold partition_func.loop
    simp only
    split
    · exact List.Perm.refl _
    · exact (ih _ _ _).trans (swapAt_perm _ _ _)

theorem partition_func_perm {α : Type} [DecidableEq α] (less : α → α → Bool) (data : List α)
    (a b pivot : Nat) : (partition_func less data a b pivot).1.Perm data := by
  unfold partition_func
  simp only
  split
  · exact (swapAt_perm _ _ _).trans (swapAt_perm _ _ _)
  · exact (swapAt_perm _ _ _).trans
      ((partition_loop_perm _ _ _ _ _ _).trans ((swapAt_perm _ _ _).trans (swapAt_perm _ _ _)))

theorem partitionThenInsertionSort_contract : SortSliceContract partitionThenInsertionSort := by
  intro less xs hless
  unfold partitionThenInsertionSort
  simp only
  split
  · exact insertionSort_contract less xs hless
  · exact ⟨(insertionSort_func_perm less _).trans (partition_func_perm _ _ _ _ _),
      insertionSort_func_sorted less hless _⟩

/-! ### The result of discovery -/

theorem sorted_pair_of_perm (ms : List Migration) (a b : Migration)
    (hperm : ms.Perm [a, b]) (hsorted : ms.Pairwise (fun x y => x.Version ≤ y.Version))
    (hlt : b.Version < a.Version) : ms = [b, a] := by
  have hlen := hperm.length_eq
  match ms, hlen with
  | [x, y], _ =>
    have hx : x ∈ [a, b] := hperm.subset (by simp)
    have hy : y ∈ [a, b] := hperm.subset (by simp)
    have ha : a ∈ [x, y] := hperm.symm.subset (by simp)
    have hb : b ∈ [x, y] := hperm.symm.subset (by simp)
    have hxy : x.Version ≤ y.Version := by
      rw [List.pairwise_cons] at hsorted
      exact hsorted.1 y (by simp)
    simp only [List.mem_cons, List.mem_singleton, List.not_mem_nil, or_false] at hx hy ha hb
    rcases hx with rfl | rfl <;> rcases hy with rfl | rfl
    · rcases hb with rfl | rfl <;> omega
    · omega
    · rfl
    · rcases ha with rfl | rfl <;> omega

theorem versionLess_eq_false_iff (a b : Migration) :
    versionLess b a = false ↔ a.Version ≤ b.Version := by
  simp [versionLess]

theorem readMigrationFiles_spec (sortSlice : SortSlice) (hsort : SortSliceContract sortSlice)
    (entries : List DirEntry) :
    ∃ ms, readMigrationFiles sortSlice (.ok entries) = .ok ms ∧
      ms.Perm (discovered entries) ∧ ms.Pairwise (fun a b => a.Version ≤ b.Version) := by
  obtain ⟨hperm, hsorted⟩ := hsort versionLess (discovered entries) versionLess_strictWeakOrder
  refine ⟨_, readMigrationFiles_ok sortSlice entries, hperm, ?_⟩
  exact hsorted.imp (fun h => (versionLess_eq_false_iff _ _).mp h)

/-- C4: for every directory listing, `readMigrationFiles` (with any `sort.Slice`
meeting its contract) returns a sequence that is a permutation of exactly the
non-directory entries whose extension is exactly `.sql`, each with
`Version = extractVersionFromFilename name` and `Description = Filename = name`,
and that is ordered by non-decreasing `Version`; on the listing
`{0002_b.sql, 0001_a.sql, 0003_c.txt}` it returns `[0001_a.sql, 0002_b.sql]`. -/
theorem readMigrationFiles_sorted_perm (sortSlice : SortSlice)
    (hsort : SortSliceContract sortSlice) (entries : List DirEntry) :
    (∃ ms, readMigrationFiles sortSlice (.ok entries) = .ok ms ∧
      ms.Perm ((entries.filter (fun e => !e.IsDir && Ext e.Name == ".sql".toList)).map
        (fun e => { Filename := e.Name, Version := extractVersionFromFilename e.Name,
                    Description := e.Name })) ∧
      ms.Pairwise (fun a b => a.Version ≤ b.Version)) ∧
    readMigrationFiles sortSlice
        (.ok [file "0002_b.sql", file "0001_a.sql", file "0003_c.txt"]) =
      .ok [{ Filename := "0001_a.sql".toList, Version := 1,
             Description := "0001_a.sql".toList },
           { Filename := "0002_b.sql".toList, Version := 2,
             Description := "0002_b.sql".toList }] := by
  refine ⟨readMigrationFiles_spec sortSlice hsort entries, ?_⟩
  obtain ⟨ms, hms, hperm, hsorted⟩ := readMigrationFiles_spec sortSlice hsort
    [file "0002_b.sql", file "0001_a.sql", file "0003_c.txt"]
  rw [hms]
  have hd : discovered [file "0002_b.sql", file "0001_a.sql", file "0003_c.txt"] =
      [{ Filename := "0002_b.sql".toList, Version := 2, Description := "0002_b.sql".toList },
       { Filename := "0001_a.sql".toList, Version := 1,
         Description := "0001_a.sql".toList }] := by decide
  rw [hd] at hperm
  rw [sorted_pair_of_perm ms _ _ hperm hsorted (by decide)]

/-- Witness of C4 with insertion sort, which meets the contract of `sort.Slice`,
on a listing of thirteen files. -/
theorem readMigrationFiles_sorted_perm_witness :
    SortSliceContract insertionSort_func ∧
    ∃ ms, readMigrationFiles insertionSort_func (.ok tiedListing) = .ok ms ∧
      ms.Perm ((tiedListing.filter (fun e => !e.IsDir && Ext e.Name == ".sql".toList)).map
        (fun e => { Filename := e.Name, Version := extractVersionFromFilename e.Name,
                    Description := e.Name })) ∧
      ms.Pairwise (fun a b => a.Version ≤ b.Version) :=
  ⟨insertionSort_contract,
   (readMigrationFiles_sorted_perm insertionSort_func insertionSort_contract tiedListing).1⟩

/-- C5 (as stated, refuted): `partitionThenInsertionSort` meets the contract of
`sort.Slice`, and with it the thirteen-file listing `tiedListing` comes back with
`001_d.sql` and `001_c.sql` before `001_a.sql`, although all three have version 1
and `001_a.sql` is first in the listing. -/
theorem readMigrationFiles_ties_reordered :
    SortSliceContract partitionThenInsertionSort ∧
    readMigrationFiles partitionThenInsertionSort (.ok tiedListing) =
      .ok (["00_g.sql", "001_d.sql", "001_c.sql", "001_a.sql", "001_e.sql", "001_f.sql",
            "001_b.sql", "01_h.sql", "01_i.sql", "01_j.sql", "01_k.sql", "01_l.sql",
            "01_m.sql"].map (fun name => migrationOf (file name))) ∧
    (["00_g.sql", "001_d.sql", "001_c.sql", "001_a.sql", "001_e.sql", "001_f.sql",
      "001_b.sql", "01_h.sql", "01_i.sql", "01_j.sql", "01_k.sql", "01_l.sql",
      "01_m.sql"].map (fun name => migrationOf (file name))).filter (sameVersion 1) ≠
      (discovered tiedListing).filter (sameVersion 1) :=
  ⟨partitionThenInsertionSort_contract, by decide, by decide⟩

/-- C5 (amended): for every directory listing and every version, the sequence
returned by `readMigrationFiles` holds the same eligible entries of that version as
the listing, in an order `sort.Slice` does not fix; the entries are in listing order
when the sort applied is the insertion sort `sort.Slice` runs on slices of at most
12 elements. -/
theorem readMigrationFiles_ties (sortSlice : SortSlice) (hsort : SortSliceContract sortSlice)
    (entries : List DirEntry) :
    (∃ ms, readMigrationFiles sortSlice (.ok entries) = .ok ms ∧
      ∀ v, (ms.filter (sameVersion v)).Perm ((discovered entries).filter (sameVersion v))) ∧
    (∃ ms, readMigrationFiles insertionSort_func (.ok entries) = .ok ms ∧
      ∀ v, ms.filter (sameVersion v) = (discovered entries).filter (sameVersion v)) := by
  constructor
  · obtain ⟨ms, hms, hperm, _⟩ := readMigrationFiles_spec sortSlice hsort entries
    exact ⟨ms, hms, fun v => hperm.filter _⟩
  · refine ⟨_, readMigrationFiles_ok insertionSort_func entries, fun v => ?_⟩
    apply insertionSort_func_filter
    intro a b hab ha hb
    simp only [sameVersion, beq_iff_eq] at ha hb
    simp only [versionLess, decide_eq_true_eq] at hab
    omega

/-- Witness of C5 (amended) with the sort that reorders the ties of `tiedListing`. -/
theorem readMigrationFiles_ties_witness :
    SortSliceContract partitionThenInsertionSort ∧
    ((∃ ms, readMigrationFiles partitionThenInsertionSort (.ok tiedListing) = .ok ms ∧
      ∀ v, (ms.filter (sameVersion v)).Perm
        ((discovered tiedListing).filter (sameVersion v))) ∧
    (∃ ms, readMigrationFiles insertionSort_func (.ok tiedListing) = .ok ms ∧
      ∀ v, ms.filter (sameVersion v) = (discovered tiedListing).filter (sameVersion v))) :=
  ⟨partitionThenInsertionSort_contract,
   readMigrationFiles_ties partitionThenInsertionSort partitionThenInsertionSort_contract
     tiedListing⟩

/-! ## The validator -/

theorem validate_loop (ms : List Migration) (check : DuplicateCheck) (seen : List Int)
    (hseen : seen.Nodup) (hmap : ∀ v, (check.versionMap v).isSome = true ↔ v ∈ seen) :
    (ms.foldl runMigrationValidate.step check).duplicates = true ↔
      check.duplicates = true ∨ ¬ (ms.map (fun m => m.Version) ++ seen).Nodup := by
  induction ms generalizing check seen with
  | nil => simp [hseen]
  | cons m rest ih =>
    rw [List.foldl_cons]
    cases hm : check.versionMap m.Version with
    | some existing =>
      have hin : m.Version ∈ seen := (hmap _).mp (by simp [hm])
      have hstep : (runMigrationValidate.step check m).versionMap = check.versionMap := by
        simp [runMigrationValidate.step, hm]
      have hdup : (runMigrationValidate.step check m).duplicates = true := by
        simp [runMigrationValidate.step, hm]
      rw [ih _ seen hseen (by rw [hstep]; exact hmap)]
      have : ¬ (List.map (fun m => m.Version) (m :: rest) ++ seen).Nodup := by
        rw [List.map_cons, List.cons_append, List.nodup_cons]
        intro h
        exact h.1 (List.mem_append_right _ hin)
      rw [hdup]
      exact ⟨fun _ => Or.inr this, fun _ => Or.inl rfl⟩
    | none =>
      have hnin : m.Version ∉ seen := by
        intro h
        have := (hmap _).mpr h
        simp [hm] at this
      have hstep : (runMigrationValidate.step check m).versionMap =
          fun version => if version = m.Version then some m.Filename
            else check.versionMap version := by
        simp [runMigrationValidate.step, hm]
      have hdup : (runMigrationValidate.step check m).duplicates = check.duplicates := by
        simp [runMigrationValidate.step, hm]
      rw [ih _ (m.Version :: seen) (List.nodup_cons.mpr ⟨hnin, hseen⟩) ?_, hdup]
      · have : (List.map (fun m => m.Version) rest ++ m.Version :: seen).Perm
            (List.map (fun m => m.Version) (m :: rest) ++ seen) := by
          rw [List.map_cons, List.cons_append]
          exact List.perm_middle
        rw [this.nodup_iff]
      · intro v
        rw [hstep]
        by_cases hv : v = m.Version
        · simp [hv]
        · simp [hv, hmap]

theorem check_duplicates_iff (ms : List Migration) :
    (runMigrationValidate.check ms).duplicates = true ↔
      ¬ (ms.map (fun m => m.Version)).Nodup := by
  unfold runMigrationValidate.check
  rw [validate_loop ms _ [] List.nodup_nil (by simp)]
  simp

theorem hasDuplicateVersion_iff (ms : List Migration) :
    HasDuplicateVersion ms ↔ ¬ (ms.map (fun m => m.Version)).Nodup := by
  unfold HasDuplicateVersion List.Nodup
  rw [List.pairwise_map, List.pairwise_iff_get]
  constructor
  · rintro ⟨i, j, hij, heq⟩ h
    exact h i j hij heq
  · intro h
    by_contra hn
    apply h
    intro i j hij heq
    exact hn ⟨i, j, hij, heq⟩

theorem runMigrationValidate_err (sortSlice : SortSlice) (w : World) (verbose : Bool)
    (projectRoot : GoString) (entries : List DirEntry) (ms : List Migration)
    (hwd : w.getwd = .ok projectRoot)
    (hdir : w.stat (migrationsDirOf projectRoot) ≠ StatResult.notExist)
    (hread : w.readDir (migrationsDirOf projectRoot) = .ok entries)
    (hms : readMigrationFiles sortSlice (.ok entries) = .ok ms) :
    (runMigrationValidate sortSlice w verbose).err =
      if (runMigrationValidate.check ms).duplicates = true ∧ ms ≠ [] then
        some "validation failed: duplicate version numbers found".toList
      else none := by
  unfold migrationsDirOf at hdir hread
  unfold runMigrationValidate
  simp only [hwd, hdir, if_false, hread, hms]
  cases ms with
  | nil => simp
  | cons m rest =>
    simp only [List.length_cons, Nat.succ_ne_zero, if_false, ne_eq, reduceCtorEq,
      not_false_eq_true, and_true]
    split <;> rfl

/-- C6: for every migration set discovered in an existing, readable directory,
`runMigrationValidate` returns an error if and only if two entries of the set have
the same `Version`; so it succeeds on a set with pairwise distinct versions and on
the empty set. -/
theorem runMigrationValidate_error_iff (sortSlice : SortSlice) (w : World) (verbose : Bool)
    (projectRoot : GoString) (entries : List DirEntry) (ms : List Migration)
    (hwd : w.getwd = .ok projectRoot)
    (hdir : w.stat (migrationsDirOf projectRoot) ≠ StatResult.notExist)
    (hread : w.readDir (migrationsDirOf projectRoot) = .ok entries)
    (hms : readMigrationFiles sortSlice (.ok entries) = .ok ms) :
    (runMigrationValidate sortSlice w verbose).err ≠ none ↔ HasDuplicateVersion ms := by
  rw [runMigrationValidate_err sortSlice w verbose projectRoot entries ms hwd hdir hread hms,
    hasDuplicateVersion_iff, ← check_duplicates_iff]
  constructor
  · intro h
    by_contra hn
    exact h (if_neg (fun hc => hn hc.1))
  · intro h
    have hne : ms ≠ [] := by
      rintro rfl
      simp [runMigrationValidate.check] at h
    rw [if_pos ⟨h, hne⟩]
    exact Option.some_ne_none _

/-- Witness of C6 on a directory with two files of version 5: the validator
returns an error, and the set has a duplicate version. -/
theorem runMigrationValidate_error_iff_witness :
    (projectWorld [file "0005_a.sql", file "0005_b.sql"] false).getwd = .ok "/project".toList ∧
    (projectWorld [file "0005_a.sql", file "0005_b.sql"] false).stat
      (migrationsDirOf "/project".toList) ≠ StatResult.notExist ∧
    (projectWorld [file "0005_a.sql", file "0005_b.sql"] false).readDir
      (migrationsDirOf "/project".toList) = .ok [file "0005_a.sql", file "0005_b.sql"] ∧
    readMigrationFiles insertionSort_func (.ok [file "0005_a.sql", file "0005_b.sql"]) =
      .ok [migrationOf (file "0005_a.sql"), migrationOf (file "0005_b.sql")] ∧
    ((runMigrationValidate insertionSort_func
        (projectWorld [file "0005_a.sql", file "0005_b.sql"] false) false).err ≠ none ↔
      HasDuplicateVersion
        [migrationOf (file "0005_a.sql"), migrationOf (file "0005_b.sql")]) :=
  ⟨rfl, by decide, rfl, by decide,
   runMigrationValidate_error_iff insertionSort_func
     (projectWorld [file "0005_a.sql", file "0005_b.sql"] false) false "/project".toList
     [file "0005_a.sql", file "0005_b.sql"] _ rfl (by decide) rfl (by decide)⟩

/-! ## The manifest generator -/

theorem digit_ofNat (d : Nat) (hd : d < 10) :
    (Char.ofNat (48 + d)).isDigit = true ∧ digitValue (Char.ofNat (48 + d)) = d := by
  interval_cases d <;> exact ⟨by decide, by decide⟩

theorem formatNat_loop_spec (fuel n : Nat) (acc : List Char) (hfuel : n < fuel)
    (hacc : ∀ c ∈ acc, c.isDigit = true) :
    (formatNat.loop fuel n acc ≠ [] ∧ ∀ c ∈ formatNat.loop fuel n acc, c.isDigit = true) ∧
    decimalValue (formatNat.loop fuel n acc) = n * 10 ^ acc.length + decimalValue acc := by
  induction fuel generalizing n acc with
  | zero => omega
  | succ fuel ih =>
    obtain ⟨hdig, hval⟩ := digit_ofNat (n % 10) (Nat.mod_lt _ (by norm_num))
    have hacc' : ∀ c ∈ Char.ofNat (48 + n % 10) :: acc, c.isDigit = true := by
      intro c hc
      rcases List.mem_cons.mp hc with rfl | hc
      · exact hdig
      · exact hacc c hc
    unfold formatNat.loop
    simp only
    split
    · rename_i h0
      refine ⟨⟨by simp, hacc'⟩, ?_⟩
      simp only [decimalValue, hval]
      have : n % 10 = n := by omega
      rw [this]
    · rename_i h0
      obtain ⟨h1, h2⟩ := ih (n / 10) _ (by omega) hacc'
      refine ⟨h1, ?_⟩
      rw [h2]
      simp only [decimalValue, hval, List.length_cons, pow_succ]
      rw [show n * 10 ^ acc.length = (10 * (n / 10) + n % 10) * 10 ^ acc.length by
        rw [Nat.div_add_mod]]
      ring

theorem formatNat_spec (n : Nat) : IsDigits (formatNat n) ∧ decimalValue (formatNat n) = n := by
  obtain ⟨h1, h2⟩ := formatNat_loop_spec (n + 1) n [] (by omega) (by simp)
  exact ⟨h1, by simpa [decimalValue] using h2⟩

theorem formatInt_denotes (z : Int) : DenotesInteger (formatInt z) z := by
  obtain ⟨hd, hv⟩ := formatNat_spec z.natAbs
  refine ⟨formatNat z.natAbs, hd, ?_⟩
  unfold formatInt
  by_cases hz : z < 0
  · rw [if_pos hz]
    exact Or.inr (Or.inr ⟨rfl, by rw [hv]; omega⟩)
  · rw [if_neg hz]
    exact Or.inl ⟨rfl, by rw [hv]; omega⟩

set_option maxRecDepth 8000 in
theorem migrationRecord_eq (m : Migration) :
    migrationRecord m =
      "        Migration \x7b version: ".toList ++ (formatInt m.Version ++
        (", description: \"".toList ++ (m.Description ++
          ("\", sql: include_str!(\"".toList ++ (m.Filename ++
            "\"), kind: MigrationKind::Up \x7d,\n".toList))))) := by
  rfl

theorem foldl_records (ms : List Migration) (content : GoString) :
    ms.foldl (fun content migration => content ++ migrationRecord migration) content =
      content ++ (ms.map migrationRecord).flatten := by
  induction ms generalizing content with
  | nil => simp
  | cons m rest ih => simp [ih, List.append_assoc]

/-- C8: for every migration list, `generateRustMigrationContent` is the fixed
header (the `use` line, the `load_migrations` signature and `vec![`), then one
record per entry in the order of the list, then the fixed footer; the record of an
entry carries its `Version` as a decimal integer numeral, its `Description` as the
description string and its `Filename` as the `include_str!` argument. The function
is given the list only: no file content is read. -/
theorem generateRustMigrationContent_records (ms : List Migration) :
    generateRustMigrationContent ms =
      ("use tauri_plugin_sql::\x7bMigration, MigrationKind\x7d;\n\n".toList ++
        "pub fn load_migrations() -> Vec<Migration> \x7b\n".toList ++ "    vec![\n".toList) ++
      (ms.map migrationRecord).flatten ++ ("    ]\n".toList ++ "\x7d\n".toList) ∧
    ∀ m : Migration,
      migrationRecord m =
        "        Migration \x7b version: ".toList ++ formatInt m.Version ++
          ", description: \"".toList ++ m.Description ++
          "\", sql: include_str!(\"".toList ++ m.Filename ++
          "\"), kind: MigrationKind::Up \x7d,\n".toList ∧
      DenotesInteger (formatInt m.Version) m.Version := by
  constructor
  · unfold generateRustMigrationContent
    simp only [foldl_records, List.nil_append, List.append_assoc]
  · intro m
    exact ⟨by rw [migrationRecord_eq]; simp only [List.append_assoc], formatInt_denotes _⟩

set_option maxRecDepth 100000 in
/-- C9 (the code at the failing input): the file name `a"b.sql` contains a double
quote. Discovery makes it the description and the file name of a migration of
version 0, and `generateRustMigrationContent` copies it into the record as it is:
the generated text holds `description: "a"b.sql"`, and no backslash occurs anywhere
in it, so the double quote of the file name stands unescaped between the quotes
that delimit the description. -/
theorem generateRustMigrationContent_quote_unescaped :
    doubleQuote ∈ "a\"b.sql".toList ∧
    readMigrationFiles insertionSort_func (.ok [file "a\"b.sql"]) =
      .ok [{ Filename := "a\"b.sql".toList, Version := 0,
             Description := "a\"b.sql".toList }] ∧
    generateRustMigrationContent
        [{ Filename := "a\"b.sql".toList, Version := 0,
           Description := "a\"b.sql".toList }] =
      ("use tauri_plugin_sql::\x7bMigration, MigrationKind\x7d;\n\n".toList ++
        "pub fn load_migrations() -> Vec<Migration> \x7b\n".toList ++
        "    vec![\n".toList ++
        "        Migration \x7b version: 0, description: \"a\"b.sql\", sql: include_str!(\"a\"b.sql\"), kind: MigrationKind::Up \x7d,\n".toList ++
        "    ]\n".toList ++ "\x7d\n".toList) ∧
    backslash ∉ generateRustMigrationContent
        [{ Filename := "a\"b.sql".toList, Version := 0,
           Description := "a\"b.sql".toList }] := by
  refine ⟨by decide, by decide, by decide, by decide⟩

/-! ## The generate command -/

set_option maxRecDepth 100000 in
/-- C7 (the code at the failing input): in a project whose migrations directory
holds `0005_a.sql` and `0005_b.sql`, both of version 5, and no generated file,
`runMigrationGenerate` writes an artifact with two records of version 5 and returns
nil, while `runMigrationValidate` on the same directory returns the duplicate
version error. -/
theorem runMigrationGenerate_writes_duplicates :
    readMigrationFiles insertionSort_func (.ok [file "0005_a.sql", file "0005_b.sql"]) =
      .ok [{ Filename := "0005_a.sql".toList, Version := 5,
             Description := "0005_a.sql".toList },
           { Filename := "0005_b.sql".toList, Version := 5,
             Description := "0005_b.sql".toList }] ∧
    (runMigrationGenerate insertionSort_func
      (projectWorld [file "0005_a.sql", file "0005_b.sql"] false) false false).err = none ∧
    (runMigrationGenerate insertionSort_func
      (projectWorld [file "0005_a.sql", file "0005_b.sql"] false) false false).effects.filter
        Effect.isWriteFile =
      [Effect.writeFile "/project/src-tauri/migrations/generated_migrations.rs".toList
        (generateRustMigrationContent
          [{ Filename := "0005_a.sql".toList, Version := 5,
             Description := "0005_a.sql".toList },
           { Filename := "0005_b.sql".toList, Version := 5,
             Description := "0005_b.sql".toList }]) 0o644] ∧
    (runMigrationValidate insertionSort_func
      (projectWorld [file "0005_a.sql", file "0005_b.sql"] false) false).err =
      some "validation failed: duplicate version numbers found".toList := by
  refine ⟨by decide, by decide, by decide, by decide⟩

theorem isWriteFile_Printf (format : String) (args : List Arg) :
    (Printf format args).isWriteFile = false := rfl

theorem isWriteFile_Println (text : String) : (Println text).isWriteFile = false := rfl

theorem isWriteFile_getwd : Effect.getwd.isWriteFile = false := rfl

theorem isWriteFile_stat (name : GoString) : (Effect.stat name).isWriteFile = false := rfl

theorem isWriteFile_readDir (name : GoString) : (Effect.readDir name).isWriteFile = false := rfl

theorem isWriteFile_writeFile (name data : GoString) (perm : Nat) :
    (Effect.writeFile name data perm).isWriteFile = true := rfl

theorem filter_isWriteFile_found (ms : List Migration) :
    (ms.map (fun m =>
      Printf "   - %s (version: %d)\n" [Arg.str m.Filename, Arg.int m.Version])).filter
        Effect.isWriteFile = [] := by
  induction ms with
  | nil => rfl
  | cons m rest ih => simp [List.filter_cons, isWriteFile_Printf, ih]

theorem runMigrationGenerate_force_eq (sortSlice : SortSlice) (w : World) (verbose : Bool)
    (projectRoot : GoString) (entries : List DirEntry)
    (hwd : w.getwd = .ok projectRoot)
    (hdir : w.stat (migrationsDirOf projectRoot) ≠ StatResult.notExist)
    (hread : w.readDir (migrationsDirOf projectRoot) = .ok entries) :
    ((sortSlice versionLess (discovered entries)).length = 0 →
      (runMigrationGenerate sortSlice w verbose true).effects.filter Effect.isWriteFile = [] ∧
      (runMigrationGenerate sortSlice w verbose true).err = none) ∧
    ((sortSlice versionLess (discovered entries)).length ≠ 0 →
      (runMigrationGenerate sortSlice w verbose true).effects.filter Effect.isWriteFile =
        [Effect.writeFile (outFileOf projectRoot)
          (generateRustMigrationContent (sortSlice versionLess (discovered entries))) 0o644] ∧
      ((runMigrationGenerate sortSlice w verbose true).err = none ↔
        w.writeFile (outFileOf projectRoot)
          (generateRustMigrationContent (sortSlice versionLess (discovered entries))) =
            none)) := by
  unfold migrationsDirOf at hdir hread
  constructor
  · intro hlen
    unfold runMigrationGenerate
    simp only [hwd, hdir, if_false, hread, readMigrationFiles_ok, hlen, if_true,
      Bool.true_eq_false, and_false]
    exact ⟨by simp [List.filter_append, List.filter_cons, isWriteFile_Println,
      isWriteFile_getwd, isWriteFile_stat, isWriteFile_readDir], trivial⟩
  · intro hlen
    unfold runMigrationGenerate outFileOf migrationsDirOf
    simp only [hwd, hdir, if_false, hread, readMigrationFiles_ok, hlen,
      Bool.true_eq_false, and_false]
    cases hw : w.writeFile
        (Join [Join [projectRoot, "src-tauri".toList, "migrations".toList],
          "generated_migrations.rs".toList])
        (generateRustMigrationContent (sortSlice versionLess (discovered entries))) with
    | some err =>
      cases verbose <;>
        simp [List.filter_append, List.filter_cons, isWriteFile_Println, isWriteFile_Printf,
          isWriteFile_getwd, isWriteFile_stat, isWriteFile_readDir, isWriteFile_writeFile,
          filter_isWriteFile_found, Errorf]
    | none =>
      cases verbose <;>
        simp [List.filter_append, List.filter_cons, isWriteFile_Println, isWriteFile_Printf,
          isWriteFile_getwd, isWriteFile_stat, isWriteFile_readDir, isWriteFile_writeFile,
          filter_isWriteFile_found]

theorem runMigrationGenerate_absent (sortSlice : SortSlice) (w1 w2 : World)
    (verbose force : Bool) (projectRoot : GoString)
    (hwd : w1.getwd = .ok projectRoot)
    (hsame : SameButArtifact w1 w2 projectRoot)
    (habsent : w2.stat (outFileOf projectRoot) ≠ StatResult.ok) :
    runMigrationGenerate sortSlice w2 verbose force =
      runMigrationGenerate sortSlice w1 verbose true := by
  obtain ⟨h1, h2, h3, h4⟩ := hsame
  unfold outFileOf migrationsDirOf at habsent
  unfold migrationsDirOf at h4
  unfold runMigrationGenerate
  simp only [h1, h2, h3, h4, hwd, habsent, false_and, if_false, Bool.true_eq_false, and_false]

/-- C10 (as stated, refuted): in a project whose migrations directory exists and
holds no `.sql` file (only `README.md`), with a generated file already present,
`runMigrationGenerate` with `force = true` calls `os.WriteFile` not at all and
returns nil. -/
theorem runMigrationGenerate_force_without_write :
    (projectWorld [file "README.md"] true).stat (migrationsDirOf "/project".toList) =
      StatResult.ok ∧
    (runMigrationGenerate insertionSort_func
      (projectWorld [file "README.md"] true) false true).effects.filter
        Effect.isWriteFile = [] ∧
    (runMigrationGenerate insertionSort_func
      (projectWorld [file "README.md"] true) false true).err = none := by
  refine ⟨by decide, by decide, by decide⟩

/-- C10 (amended): for every filesystem state in which the migrations directory
exists and can be listed, `runMigrationGenerate` with `force = true` proceeds
exactly as in the Absent case, whether or not the artifact existed before. When the
directory holds at least one eligible file it calls `os.WriteFile` exactly once, on
the artifact path with the generated content and mode 0644, and returns nil exactly
when that write succeeds; when it holds no eligible file it writes nothing and
returns nil. -/
theorem runMigrationGenerate_force (sortSlice : SortSlice)
    (hsort : SortSliceContract sortSlice) (w : World) (verbose : Bool)
    (projectRoot : GoString) (entries : List DirEntry)
    (hwd : w.getwd = .ok projectRoot)
    (hdir : w.stat (migrationsDirOf projectRoot) ≠ StatResult.notExist)
    (hread : w.readDir (migrationsDirOf projectRoot) = .ok entries) :
    (discovered entries ≠ [] →
      (runMigrationGenerate sortSlice w verbose true).effects.filter Effect.isWriteFile =
        [Effect.writeFile (outFileOf projectRoot)
          (generateRustMigrationContent (sortSlice versionLess (discovered entries))) 0o644] ∧
      ((runMigrationGenerate sortSlice w verbose true).err = none ↔
        w.writeFile (outFileOf projectRoot)
          (generateRustMigrationContent (sortSlice versionLess (discovered entries))) =
            none)) ∧
    (discovered entries = [] →
      (runMigrationGenerate sortSlice w verbose true).effects.filter Effect.isWriteFile = [] ∧
      (runMigrationGenerate sortSlice w verbose true).err = none) ∧
    (∀ (w2 : World) (force : Bool), SameButArtifact w w2 projectRoot →
      w2.stat (outFileOf projectRoot) ≠ StatResult.ok →
      runMigrationGenerate sortSlice w2 verbose force =
        runMigrationGenerate sortSlice w verbose true) := by
  have hlen : (sortSlice versionLess (discovered entries)).length =
      (discovered entries).length :=
    (hsort versionLess (discovered entries) versionLess_strictWeakOrder).1.length_eq
  obtain ⟨hnone, hsome⟩ :=
    runMigrationGenerate_force_eq sortSlice w verbose projectRoot entries hwd hdir hread
  refine ⟨fun hne => hsome ?_, fun he => hnone ?_, fun w2 force hsame habsent =>
    runMigrationGenerate_absent sortSlice w w2 verbose force projectRoot hwd hsame habsent⟩
  · rw [hlen]
    exact fun h => hne (List.length_eq_zero.mp h)
  · rw [hlen, he]
    rfl

set_option maxRecDepth 100000 in
/-- Witness of C10 (amended) in a project with one migration and a generated file
already present: the artifact is written once, with the generated content. -/
theorem runMigrationGenerate_force_witness :
    SortSliceContract insertionSort_func ∧
    (projectWorld [file "0001_a.sql"] true).getwd = .ok "/project".toList ∧
    (projectWorld [file "0001_a.sql"] true).stat (migrationsDirOf "/project".toList) ≠
      StatResult.notExist ∧
    (projectWorld [file "0001_a.sql"] true).readDir (migrationsDirOf "/project".toList) =
      .ok [file "0001_a.sql"] ∧
    discovered [file "0001_a.sql"] ≠ [] ∧
    (runMigrationGenerate insertionSort_func
      (projectWorld [file "0001_a.sql"] true) false true).effects.filter
        Effect.isWriteFile =
      [Effect.writeFile (outFileOf "/project".toList)
        (generateRustMigrationContent
          (insertionSort_func versionLess (discovered [file "0001_a.sql"]))) 0o644] :=
  ⟨insertionSort_contract, rfl, by decide, rfl, by decide,
   ((runMigrationGenerate_force insertionSort_func insertionSort_contract
      (projectWorld [file "0001_a.sql"] true) false "/project".toList [file "0001_a.sql"]
      rfl (by decide) rfl).1 (by decide)).1⟩

/-! ## The overwrite guard of the generate command -/

theorem firstWithVersion_append (earlier : List Migration) (m : Migration) (v : Int) :
    firstWithVersion (earlier ++ [m]) v =
      (firstWithVersion earlier v).or (if m.Version = v then some m else none) := by
  unfold firstWithVersion
  rw [List.find?_append]
  by_cases h : m.Version = v <;> simp [List.find?_cons, h]

theorem firstWithVersion_isSome (earlier : List Migration) (v : Int) :
    (firstWithVersion earlier v).isSome = true ↔ v ∈ earlier.map (fun m => m.Version) := by
  unfold firstWithVersion
  rw [List.find?_isSome]
  simp only [beq_iff_eq, List.mem_map]

theorem check_loop_printed (ms : List Migration) (check : DuplicateCheck)
    (earlier : List Migration)
    (hmap : ∀ v, check.versionMap v =
      (firstWithVersion earlier v).map (fun m => m.Filename)) :
    (ms.foldl runMigrationValidate.step check).printed =
      check.printed ++ expectedConflicts earlier ms := by
  induction ms generalizing check earlier with
  | nil => simp [expectedConflicts]
  | cons m rest ih =>
    rw [List.foldl_cons, expectedConflicts]
    have hm := hmap m.Version
    cases hfirst : firstWithVersion earlier m.Version with
    | some first =>
      rw [hfirst] at hm
      simp only [Option.map_some'] at hm
      have hstep : runMigrationValidate.step check m =
          { check with
            printed := check.printed ++ [conflictReport m.Version first.Filename m.Filename],
            duplicates := true } := by
        simp only [runMigrationValidate.step, hm, conflictReport]
      rw [ih _ (earlier ++ [m]) ?_, hstep]
      · simp only [List.append_assoc]
      · intro v
        rw [hstep, firstWithVersion_append]
        simp only
        rw [hmap v]
        by_cases hv : m.Version = v
        · subst hv
          simp [hfirst]
        · simp [hv]
    | none =>
      rw [hfirst] at hm
      simp only [Option.map_none'] at hm
      have hstep : runMigrationValidate.step check m =
          { check with
            versionMap := fun version =>
              if version = m.Version then some m.Filename else check.versionMap version } := by
        simp only [runMigrationValidate.step, hm]
      rw [ih _ (earlier ++ [m]) ?_, hstep]
      · simp only [List.nil_append]
      · intro v
        rw [hstep, firstWithVersion_append]
        simp only
        by_cases hv : v = m.Version
        · subst hv
          simp [hfirst]
        · have hv' : ¬ m.Version = v := fun h => hv h.symm
          simp [hv, hv', hmap v]

theorem expectedConflicts_length (earlier rest : List Migration) :
    (expectedConflicts earlier rest).length +
        ((earlier ++ rest).map (fun m => m.Version)).toFinset.card =
      rest.length + (earlier.map (fun m => m.Version)).toFinset.card := by
  induction rest generalizing earlier with
  | nil => simp [expectedConflicts]
  | cons m rest ih =>
    have h := ih (earlier ++ [m])
    rw [List.append_assoc, List.singleton_append] at h
    rw [expectedConflicts, List.length_append, List.length_cons]
    have hcard : (List.map (fun m => m.Version) (earlier ++ [m])).toFinset =
        insert m.Version (List.map (fun m => m.Version) earlier).toFinset := by
      ext v
      simp only [List.map_append, List.map_cons, List.map_nil, List.toFinset_append,
        List.toFinset_cons, List.toFinset_nil, Finset.mem_union, Finset.mem_insert,
        Finset.mem_singleton, insert_emptyc_eq]
      tauto
    rw [hcard] at h
    cases hfirst : firstWithVersion earlier m.Version with
    | some first =>
      have hin : m.Version ∈ (List.map (fun m => m.Version) earlier).toFinset :=
        List.mem_toFinset.mpr ((firstWithVersion_isSome _ _).mp (by simp [hfirst]))
      rw [Finset.insert_eq_of_mem hin] at h
      simp only [List.length_cons, List.length_nil]
      omega
    | none =>
      have hnin : m.Version ∉ (List.map (fun m => m.Version) earlier).toFinset := by
        intro hin
        have := (firstWithVersion_isSome _ _).mpr (List.mem_toFinset.mp hin)
        simp [hfirst] at this
      rw [Finset.card_insert_of_not_mem hnin] at h
      simp only [List.length_nil]
      omega

theorem runMigrationValidate_effects (sortSlice : SortSlice) (w : World) (verbose : Bool)
    (projectRoot : GoString) (entries : List DirEntry) (ms : List Migration)
    (hwd : w.getwd = .ok projectRoot)
    (hdir : w.stat (migrationsDirOf projectRoot) ≠ StatResult.notExist)
    (hread : w.readDir (migrationsDirOf projectRoot) = .ok entries)
    (hms : readMigrationFiles sortSlice (.ok entries) = .ok ms) (hne : ms ≠ []) :
    (runMigrationValidate sortSlice w verbose).effects =
      [Println "✅ Validating migrations...", Effect.getwd,
        Effect.stat (migrationsDirOf projectRoot),
        Effect.readDir (migrationsDirOf projectRoot)] ++
      (if verbose then
        [Println "🔍 Checking filename formats...",
         Println "🔍 Validating version numbers...",
         Println "🔍 Checking for duplicates..."]
       else []) ++
      (runMigrationValidate.check ms).printed ++
      (if (runMigrationValidate.check ms).duplicates then []
       else [Printf "✅ All %d migrations are valid!\n" [Arg.int ms.length]]) := by
  unfold migrationsDirOf at *
  unfold runMigrationValidate
  have hlen : ms.length ≠ 0 := fun h => hne (List.length_eq_zero.mp h)
  simp only [hwd, hdir, if_false, hread, hms, hlen]
  cases (runMigrationValidate.check ms).duplicates <;> simp

theorem check_printed_conflicts (ms : List Migration) :
    (runMigrationValidate.check ms).printed = expectedConflicts [] ms := by
  unfold runMigrationValidate.check
  rw [check_loop_printed ms _ [] (by intro v; simp [firstWithVersion])]
  simp

theorem expectedConflicts_count (ms : List Migration) :
    (expectedConflicts [] ms).length =
      ms.length - (ms.map (fun m => m.Version)).dedup.length := by
  have h := expectedConflicts_length [] ms
  simp only [List.nil_append, List.map_nil, List.toFinset_nil, Finset.card_empty,
    List.card_toFinset, Nat.add_zero] at h
  omega

set_option maxRecDepth 8000 in
theorem conflictReport_eq (version : Int) (existing filename : GoString) :
    conflictReport version existing filename =
      Effect.print ("❌ Duplicate version ".toList ++ (formatInt version ++
        (": ".toList ++ (existing ++ (" and ".toList ++ (filename ++ "\n".toList)))))) := by
  rfl

theorem isConflictReport_conflictReport (version : Int) (existing filename : GoString) :
    isConflictReport (conflictReport version existing filename) = true := by
  rw [conflictReport_eq]
  simp only [isConflictReport, List.isPrefixOf_iff_prefix]
  exact List.prefix_append _ _

theorem filter_expectedConflicts (earlier ms : List Migration) :
    (expectedConflicts earlier ms).filter isConflictReport = expectedConflicts earlier ms := by
  induction ms generalizing earlier with
  | nil => rfl
  | cons m rest ih =>
    rw [expectedConflicts, List.filter_append, ih]
    cases firstWithVersion earlier m.Version with
    | none => rfl
    | some first =>
      simp only [List.filter_cons, isConflictReport_conflictReport, if_true, List.filter_nil]

set_option maxRecDepth 8000 in
theorem isConflictReport_valid (n : Int) :
    isConflictReport (Printf "✅ All %d migrations are valid!\n" [Arg.int n]) = false := by
  rfl

theorem runMigrationValidate_effects_nil (sortSlice : SortSlice) (w : World) (verbose : Bool)
    (projectRoot : GoString) (entries : List DirEntry)
    (hwd : w.getwd = .ok projectRoot)
    (hdir : w.stat (migrationsDirOf projectRoot) ≠ StatResult.notExist)
    (hread : w.readDir (migrationsDirOf projectRoot) = .ok entries)
    (hms : readMigrationFiles sortSlice (.ok entries) = .ok []) :
    (runMigrationValidate sortSlice w verbose).effects =
      [Println "✅ Validating migrations...", Effect.getwd,
        Effect.stat (migrationsDirOf projectRoot),
        Effect.readDir (migrationsDirOf projectRoot),
        Println "⚠️  No SQL migration files found"] := by
  unfold migrationsDirOf at *
  unfold runMigrationValidate
  simp only [hwd, hdir, if_false, hread, hms, List.length_nil, if_true, List.cons_append,
    List.nil_append]

/-- C12: for every migration set discovered in an existing, readable directory,
`runMigrationValidate` prints, between its opening lines and its closing line, exactly
one conflict line for each entry whose `Version` already occurred earlier in the
set, pairing the first file name observed for that version with the entry's file
name, in set order and in a single pass; the number of conflict lines the command
prints is the number of entries minus the number of distinct versions. -/
theorem runMigrationValidate_conflicts (sortSlice : SortSlice) (w : World) (verbose : Bool)
    (projectRoot : GoString) (entries : List DirEntry) (ms : List Migration)
    (hwd : w.getwd = .ok projectRoot)
    (hdir : w.stat (migrationsDirOf projectRoot) ≠ StatResult.notExist)
    (hread : w.readDir (migrationsDirOf projectRoot) = .ok entries)
    (hms : readMigrationFiles sortSlice (.ok entries) = .ok ms) :
    (runMigrationValidate sortSlice w verbose).effects =
      [Println "✅ Validating migrations...", Effect.getwd,
        Effect.stat (migrationsDirOf projectRoot),
        Effect.readDir (migrationsDirOf projectRoot)] ++
      (if ms = [] then [Println "⚠️  No SQL migration files found"]
       else
        (if verbose then
          [Println "🔍 Checking filename formats...",
           Println "🔍 Validating version numbers...",
           Println "🔍 Checking for duplicates..."]
         else []) ++
        expectedConflicts [] ms ++
        (if (ms.map (fun m => m.Version)).Nodup then
          [Printf "✅ All %d migrations are valid!\n" [Arg.int ms.length]]
         else [])) ∧
    (runMigrationValidate sortSlice w verbose).effects.filter isConflictReport =
      expectedConflicts [] ms ∧
    ((runMigrationValidate sortSlice w verbose).effects.filter isConflictReport).length =
      ms.length - (ms.map (fun m => m.Version)).dedup.length := by
  have heff : (runMigrationValidate sortSlice w verbose).effects =
      [Println "✅ Validating migrations...", Effect.getwd,
        Effect.stat (migrationsDirOf projectRoot),
        Effect.readDir (migrationsDirOf projectRoot)] ++
      (if ms = [] then [Println "⚠️  No SQL migration files found"]
       else
        (if verbose then
          [Println "🔍 Checking filename formats...",
           Println "🔍 Validating version numbers...",
           Println "🔍 Checking for duplicates..."]
         else []) ++
        expectedConflicts [] ms ++
        (if (ms.map (fun m => m.Version)).Nodup then
          [Printf "✅ All %d migrations are valid!\n" [Arg.int ms.length]]
         else [])) := by
    by_cases hne : ms = []
    · subst hne
      rw [runMigrationValidate_effects_nil sortSlice w verbose projectRoot entries hwd hdir
        hread hms]
      rfl
    · rw [runMigrationValidate_effects sortSlice w verbose projectRoot entries ms hwd hdir
        hread hms hne, check_printed_conflicts, if_neg hne]
      have hdup := check_duplicates_iff ms
      by_cases hnd : (ms.map (fun m => m.Version)).Nodup
      · have : (runMigrationValidate.check ms).duplicates = false := by
          cases h : (runMigrationValidate.check ms).duplicates
          · rfl
          · exact absurd hnd (hdup.mp h)
        simp only [this, hnd, if_true, Bool.false_eq_true, if_false, List.append_assoc]
      · have : (runMigrationValidate.check ms).duplicates = true := hdup.mpr hnd
        simp only [this, hnd, if_true, if_false, List.append_assoc]
  have hfilter : (runMigrationValidate sortSlice w verbose).effects.filter isConflictReport =
      expectedConflicts [] ms := by
    rw [heff]
    by_cases hne : ms = []
    · subst hne
      rfl
    · rw [if_neg hne, List.filter_append, List.filter_append, List.filter_append,
        filter_expectedConflicts]
      have h1 : List.filter isConflictReport
          [Println "✅ Validating migrations...", Effect.getwd,
            Effect.stat (migrationsDirOf projectRoot),
            Effect.readDir (migrationsDirOf projectRoot)] = [] := rfl
      have h2 : List.filter isConflictReport
          (if verbose then
            [Println "🔍 Checking filename formats...",
             Println "🔍 Validating version numbers...",
             Println "🔍 Checking for duplicates..."]
           else []) = [] := by
        cases verbose <;> rfl
      have h3 : List.filter isConflictReport
          (if (ms.map (fun m => m.Version)).Nodup then
            [Printf "✅ All %d migrations are valid!\n" [Arg.int ms.length]]
           else []) = [] := by
        split
        · simp only [List.filter_cons, isConflictReport_valid, Bool.false_eq_true, if_false,
            List.filter_nil]
        · rfl
      rw [h1, h2, h3]
      simp
  exact ⟨heff, hfilter, by rw [hfilter, expectedConflicts_count]⟩

set_option maxRecDepth 100000 in
/-- Witness of C12 on a directory with three files of version 5: the command prints
two conflict lines, both naming `0005_a.sql` as the first file of the version. -/
theorem runMigrationValidate_conflicts_witness :
    (projectWorld [file "0005_a.sql", file "0005_b.sql", file "5_c.sql"] false).getwd =
      .ok "/project".toList ∧
    (projectWorld [file "0005_a.sql", file "0005_b.sql", file "5_c.sql"] false).stat
      (migrationsDirOf "/project".toList) ≠ StatResult.notExist ∧
    (projectWorld [file "0005_a.sql", file "0005_b.sql", file "5_c.sql"] false).readDir
      (migrationsDirOf "/project".toList) =
        .ok [file "0005_a.sql", file "0005_b.sql", file "5_c.sql"] ∧
    readMigrationFiles insertionSort_func
        (.ok [file "0005_a.sql", file "0005_b.sql", file "5_c.sql"]) =
      .ok [migrationOf (file "0005_a.sql"), migrationOf (file "0005_b.sql"),
           migrationOf (file "5_c.sql")] ∧
    (runMigrationValidate insertionSort_func
      (projectWorld [file "0005_a.sql", file "0005_b.sql", file "5_c.sql"] false)
      false).effects.filter isConflictReport =
      expectedConflicts []
        [migrationOf (file "0005_a.sql"), migrationOf (file "0005_b.sql"),
         migrationOf (file "5_c.sql")] ∧
    expectedConflicts []
        [migrationOf (file "0005_a.sql"), migrationOf (file "0005_b.sql"),
         migrationOf (file "5_c.sql")] =
      [conflictReport 5 "0005_a.sql".toList "0005_b.sql".toList,
       conflictReport 5 "0005_a.sql".toList "5_c.sql".toList] :=
  ⟨rfl, by decide, rfl, by decide,
   (runMigrationValidate_conflicts insertionSort_func
      (projectWorld [file "0005_a.sql", file "0005_b.sql", file "5_c.sql"] false) false
      "/project".toList [file "0005_a.sql", file "0005_b.sql", file "5_c.sql"] _
      rfl (by decide) rfl (by decide)).2.1,
   by decide⟩

end ContainerKit
